import Mathlib

/-!
Verification development for the ERNIE-FinSight backend
(`backend/services/ernie_analyzer.py`, `backend/main.py`,
`backend/models/schemas.py`, `backend/services/pdf_processor.py`).

The Python code is shallowly embedded: JSON values become the inductive
type `JValue` (Python dicts are insertion-ordered association lists, as
`json.loads` produces them), text becomes `List Char` / `String`, and
Python code that can raise becomes `Except String`.  Mutation of a dict
that is reachable from `data` under a key is modelled as
read-transform-write-back, which coincides with Python's aliasing
semantics whenever the key is present in `data` (which the code
establishes before mutating, see the comments at each step).
-/

set_option maxHeartbeats 1000000

namespace FinSight

/-! ## Basic character/text helpers (Python semantics) -/

/-- Python whitespace for `str.strip`/`str.rstrip`/regex `\s`
(space, tab, newline, carriage return, vertical tab, form feed;
further unicode whitespace does not occur in this development). -/
def isPyWs (c : Char) : Bool :=
  c = ' ' || c = '\t' || c = '\n' || c = '\r' || c = '\x0b' || c = '\x0c'

/-- `str.lstrip()` -/
def lstrip (l : List Char) : List Char := l.dropWhile isPyWs

/-- Remove the maximal trailing run of characters satisfying `p`
(`str.rstrip` with an explicit character class). -/
def rstripBy (p : Char → Bool) : List Char → List Char
  | [] => []
  | c :: t =>
    match rstripBy p t with
    | [] => if p c then [] else [c]
    | r => c :: r

/-- `str.rstrip()` -/
def rstrip (l : List Char) : List Char := rstripBy isPyWs l

/-- `str.strip()` -/
def pyStrip (l : List Char) : List Char := rstrip (lstrip l)

/-- Number of occurrences of the character `c` (`str.count` for a
single-character argument). -/
def countc (c : Char) (l : List Char) : Nat := l.count c

/-- Whether the pattern `p` occurs as a contiguous substring
(Python's `p in s`). -/
def occurs : List Char → List Char → Bool
  | p, [] => p.isPrefixOf []
  | p, c :: t => p.isPrefixOf (c :: t) || occurs p t

/-- Index of the first occurrence of `p` (`str.find`, as `Option`). -/
def findSub? : List Char → List Char → Option Nat
  | p, [] => if p.isPrefixOf [] then some 0 else none
  | p, c :: t =>
    if p.isPrefixOf (c :: t) then some 0
    else (findSub? p t).map (· + 1)

/-- Remove every (left-to-right, non-overlapping) occurrence of `p`
(`str.replace(p, "")`), by fuel on the length; the fuel is sufficient
because each step consumes at least one character. -/
def removeSubFuel (p : List Char) : Nat → List Char → List Char
  | 0, l => l
  | _ + 1, [] => []
  | fuel + 1, c :: t =>
    if p.isPrefixOf (c :: t) ∧ p ≠ [] then
      removeSubFuel p fuel ((c :: t).drop p.length)
    else
      c :: removeSubFuel p fuel t

def removeSub (p l : List Char) : List Char := removeSubFuel p (l.length + 1) l

/-- Python `s.endswith(c)` for one character. -/
def endsWithC (l : List Char) (c : Char) : Bool :=
  match l.getLast? with
  | some d => d = c
  | none => false

/-- Join lines with a newline (`"\n".join`). -/
def joinNl (ls : List (List Char)) : List Char := List.intercalate ['\n'] ls

/-! ## JSON values

`json.loads` produces dicts (insertion-ordered), lists, strings, ints,
floats, bools and `None`.  Floating-point numbers never arise in the
inputs this development evaluates, so numbers are carried as integers
(`jsonParse` rejects a fractional or exponent part instead of
mis-modelling it). -/

inductive JValue where
  | null
  | bool (b : Bool)
  | int (n : Int)
  | str (s : String)
  | arr (items : List JValue)
  | obj (fields : List (String × JValue))
deriving Repr

abbrev JObj := List (String × JValue)

namespace JValue

/-- Python truthiness (`bool(x)`). -/
def truthy : JValue → Bool
  | .null => false
  | .bool b => b
  | .int n => n ≠ 0
  | .str s => s ≠ ""
  | .arr items => !items.isEmpty
  | .obj fields => !fields.isEmpty

end JValue

/-- Dict lookup (`d.get(k)`), first binding wins. -/
def jget? (d : JObj) (k : String) : Option JValue :=
  match d.find? (fun p => p.1 = k) with
  | some p => some p.2
  | none => none

/-- `d.get(k, dflt)` -/
def jgetD (d : JObj) (k : String) (dflt : JValue) : JValue :=
  (jget? d k).getD dflt

/-- `k in d` for a dict. -/
def jhas (d : JObj) (k : String) : Bool := (jget? d k).isSome

/-- `d[k] = v`: replace the first binding in place, else append
(Python dicts keep the original position of an updated key and append
new keys). -/
def jset (d : JObj) (k : String) (v : JValue) : JObj :=
  match d with
  | [] => [(k, v)]
  | (k', v') :: t => if k' = k then (k, v) :: t else (k', v') :: jset t k v

/-- Truthiness of `d.get(k)` (`None` when absent, hence falsy). -/
def jtruthy (d : JObj) (k : String) : Bool :=
  match jget? d k with
  | some v => v.truthy
  | none => false

/-! ## A JSON syntax checker / parser (models `json.loads`)

Used to state "parses as JSON" / "fails to parse".  Recursive descent
with fuel (each step consumes at least one character, so fuel
`length + 1` is sufficient).  Fractional/exponent numbers are rejected
rather than mis-modelled; no input evaluated in this development
contains them. -/

def jsonWsChar (c : Char) : Bool :=
  c = ' ' || c = '\t' || c = '\n' || c = '\r'

def hexVal? (c : Char) : Option Nat :=
  if '0' ≤ c ∧ c ≤ '9' then some (c.toNat - '0'.toNat)
  else if 'a' ≤ c ∧ c ≤ 'f' then some (c.toNat - 'a'.toNat + 10)
  else if 'A' ≤ c ∧ c ≤ 'F' then some (c.toNat - 'A'.toNat + 10)
  else none

/-- Parse the body of a JSON string literal (after the opening quote),
returning the decoded characters and the rest of the input. -/
def parseJStr : Nat → List Char → Option (List Char × List Char)
  | 0, _ => none
  | _ + 1, [] => none
  | fuel + 1, c :: t =>
    if c = '"' then some ([], t)
    else if c = '\\' then
      match t with
      | [] => none
      | e :: t2 =>
        let simple : Option Char :=
          if e = '"' then some '"'
          else if e = '\\' then some '\\'
          else if e = '/' then some '/'
          else if e = 'b' then some '\x08'
          else if e = 'f' then some '\x0c'
          else if e = 'n' then some '\n'
          else if e = 'r' then some '\r'
          else if e = 't' then some '\t'
          else none
        match simple with
        | some ch => (parseJStr fuel t2).map (fun pr => (ch :: pr.1, pr.2))
        | none =>
          if e = 'u' then
            match t2 with
            | h1 :: h2 :: h3 :: h4 :: t3 =>
              match hexVal? h1, hexVal? h2, hexVal? h3, hexVal? h4 with
              | some a, some b, some cc, some d =>
                let code := ((a * 16 + b) * 16 + cc) * 16 + d
                (parseJStr fuel t3).map (fun pr => (Char.ofNat code :: pr.1, pr.2))
              | _, _, _, _ => none
            | _ => none
          else none
    else if c.toNat < 0x20 then none  -- raw control characters are invalid
    else (parseJStr fuel t).map (fun pr => (c :: pr.1, pr.2))

def isDigitC (c : Char) : Bool := '0' ≤ c ∧ c ≤ '9'

def digitsToInt (ds : List Char) : Int :=
  ds.foldl (fun acc c => acc * 10 + (Int.ofNat (c.toNat - '0'.toNat))) 0

/-- Parse a JSON number; only the integer form is accepted (see above). -/
def parseJNum (l : List Char) : Option (Int × List Char) :=
  let (neg, l1) := match l with
    | '-' :: t => (true, t)
    | _ => (false, l)
  let ds := l1.takeWhile isDigitC
  let rest := l1.drop ds.length
  if ds = [] then none
  else if ds.length > 1 ∧ ds.head? = some '0' then none  -- no leading zeros
  else match rest with
    | '.' :: _ => none  -- fractional part: not modelled
    | 'e' :: _ => none
    | 'E' :: _ => none
    | _ => some (if neg then -(digitsToInt ds) else digitsToInt ds, rest)

mutual

def parseJVal : Nat → List Char → Option (JValue × List Char)
  | 0, _ => none
  | fuel + 1, l =>
    let l := l.dropWhile jsonWsChar
    match l with
    | [] => none
    | c :: t =>
      if c = '"' then (parseJStr fuel t).map (fun pr => (.str pr.1.asString, pr.2))
      else if c = '{' then
        match (t.dropWhile jsonWsChar) with
        | '}' :: t2 => some (.obj [], t2)
        | _ => (parseJMembers fuel t).map (fun pr => (.obj pr.1, pr.2))
      else if c = '[' then
        match (t.dropWhile jsonWsChar) with
        | ']' :: t2 => some (.arr [], t2)
        | _ => (parseJItems fuel t).map (fun pr => (.arr pr.1, pr.2))
      else if c = 't' then
        if ['r', 'u', 'e'].isPrefixOf t then some (.bool true, t.drop 3) else none
      else if c = 'f' then
        if ['a', 'l', 's', 'e'].isPrefixOf t then some (.bool false, t.drop 4) else none
      else if c = 'n' then
        if ['u', 'l', 'l'].isPrefixOf t then some (.null, t.drop 3) else none
      else
        (parseJNum (c :: t)).map (fun pr => (.int pr.1, pr.2))

/-- Parse `ws string ws : value (, members | ws })` (at least one member). -/
def parseJMembers : Nat → List Char → Option (JObj × List Char)
  | 0, _ => none
  | fuel + 1, l =>
    match l.dropWhile jsonWsChar with
    | '"' :: t =>
      match parseJStr fuel t with
      | none => none
      | some (key, rest) =>
        match rest.dropWhile jsonWsChar with
        | ':' :: rest2 =>
          match parseJVal fuel rest2 with
          | none => none
          | some (v, rest3) =>
            match rest3.dropWhile jsonWsChar with
            | ',' :: rest4 =>
              (parseJMembers fuel rest4).map
                (fun pr => ((key.asString, v) :: pr.1, pr.2))
            | '}' :: rest4 => some ([(key.asString, v)], rest4)
            | _ => none
        | _ => none
    | _ => none

def parseJItems : Nat → List Char → Option (List JValue × List Char)
  | 0, _ => none
  | fuel + 1, l =>
    match parseJVal fuel l with
    | none => none
    | some (v, rest) =>
      match rest.dropWhile jsonWsChar with
      | ',' :: rest2 => (parseJItems fuel rest2).map (fun pr => (v :: pr.1, pr.2))
      | ']' :: rest2 => some ([v], rest2)
      | _ => none

end

/-- `json.loads`: one JSON value, surrounded only by whitespace. -/
def jsonParse (s : String) : Option JValue :=
  let l := s.toList
  match parseJVal (l.length + 1) l with
  | some (v, rest) => if rest.dropWhile jsonWsChar = [] then some v else none
  | none => none

/-! ## `_fix_common_json_issues` (ernie_analyzer.py, lines 427-518) -/

/-- `re.sub(r',(\s*[}\]])', r'\1', text)`: drop a comma standing before
(whitespace and) a closing delimiter; scanning is left-to-right and
non-overlapping, continuing after each replaced region.  Fuel recursion;
every step consumes at least one character, so `length + 1` suffices. -/
def stcFuel : Nat → List Char → List Char
  | 0, l => l
  | _ + 1, [] => []
  | fuel + 1, c :: t =>
    if c = ',' then
      match t.dropWhile isPyWs with
      | d :: r =>
        if d = '\x7d' ∨ d = ']' then t.takeWhile isPyWs ++ d :: stcFuel fuel r
        else c :: stcFuel fuel t
      | [] => c :: stcFuel fuel t
    else c :: stcFuel fuel t

def stripTrailingCommas (l : List Char) : List Char := stcFuel (l.length + 1) l

/-- The `last_complete` computed by the brace-balancing loop: one past
the position of the last `}` at which the running depth returned to
zero (`None` for the initial `-1`). -/
def lastCompleteAux : List Char → Nat → Int → Option Nat → Option Nat
  | [], _, _, best => best
  | c :: t, i, bc, best =>
    if c = '{' then lastCompleteAux t (i + 1) (bc + 1) best
    else if c = '}' then
      lastCompleteAux t (i + 1) (bc - 1) (if bc - 1 = 0 then some (i + 1) else best)
    else lastCompleteAux t (i + 1) bc best

/-- Brace balancing: when `{` outnumber `}`, truncate to the last
complete object, else append the missing closers. -/
def fixBraces (l : List Char) : List Char :=
  if countc '{' l > countc '}' l then
    match lastCompleteAux l 0 0 none with
    | some lc => l.take lc
    | none => l ++ List.replicate (countc '{' l - countc '}' l) '}'
  else l

/-- Bracket balancing: append missing `]` (no truncation attempt). -/
def fixBrackets (l : List Char) : List Char :=
  if countc '[' l > countc ']' l then
    l ++ List.replicate (countc '[' l - countc ']' l) ']'
  else l

/-- The quote count the code uses: count `"` after removing the
occurrences of a backslash-quote pair (`line.replace('\\"', '')`). -/
def codeQuoteCount (l : List Char) : Nat := countc '"' (removeSub ['\\', '"'] l)

/-- Per-line fix for a dangling string: applied only when the line has
an odd quote count AND contains a colon. -/
def fixUnterminatedLine (line : List Char) : List Char :=
  if codeQuoteCount line % 2 ≠ 0 ∧ ':' ∈ line then
    let ls := rstrip line
    match ls.getLast? with
    | some d =>
      if d = ',' then ls.dropLast ++ ['"', ',']
      else if d = '}' ∨ d = ']' then ls.dropLast ++ ['"', d]
      else ls ++ ['"']
    | none => ls ++ ['"']  -- `''.endswith(...)` is false: same as the final branch
  else line

/-- Per-line fix escaping unescaped quotes inside a quoted value. -/
def fixInnerQuotes (line : List Char) : List Char :=
  if ':' ∈ line ∧ '"' ∈ line then
    match findSub? [':'] line with
    | some i =>
      -- line.split(':', 1): key part before the first colon, value after
      let keyPart := line.take i
      let vp := pyStrip (line.drop (i + 1))
      let vpc := rstripBy (· = ',') vp
      if vp.head? = some '"' ∧ endsWithC vpc '"' ∧ countc '"' vp > 2 then
        -- value_part[1 : value_part.rstrip(',').rfind('"')]
        let ridx := vpc.length - 1 - (findSub? ['"'] vpc.reverse).getD 0
        let content := (vp.drop 1).take (ridx - 1)
        let content2 := (content.map fun c => if c = '"' then ['\\', '"'] else [c]).flatten
        let tc : List Char := if endsWithC (rstrip vp) ',' then [','] else []
        keyPart ++ ':' :: ' ' :: '"' :: content2 ++ '"' :: tc
      else line
    | none => line
  else line

/-- `_fix_common_json_issues`. -/
def fixCommonJsonIssues (l : List Char) : List Char :=
  let l1 := stripTrailingCommas l
  let l2 := fixBraces l1
  let l3 := fixBrackets l2
  let lines := l3.splitOn '\n'
  let l4 := joinNl (lines.map fun ln => fixInnerQuotes (fixUnterminatedLine ln))
  let l5 := pyStrip (stripTrailingCommas l4)
  if ¬ endsWithC l5 '}' ∧ l5.head? = some '{' then
    let missing : Int := (countc '{' l5 : Int) - (countc '}' l5 : Int)
    if missing > 0 then l5 ++ List.replicate missing.toNat '}' else l5
  else l5

/-! ## `_aggressive_json_repair` (ernie_analyzer.py, lines 520-617) -/

/-- Characters removed by `re.sub(r'[\x00-\x1f\x7f-\x9f]', '', ...)`.
Note this removes newlines, so the later line-by-line passes always see
a single line. -/
def isCtrlRm (c : Char) : Bool :=
  c.toNat ≤ 0x1f || (0x7f ≤ c.toNat && c.toNat ≤ 0x9f)

def isIdentStart (c : Char) : Bool :=
  ('a' ≤ c ∧ c ≤ 'z') || ('A' ≤ c ∧ c ≤ 'Z') || c = '_'

def isIdentChar (c : Char) : Bool := isIdentStart c || isDigitC c

/-- Quote an unquoted property name:
`re.match(r'^(\s*)([a-zA-Z_][a-zA-Z0-9_]*)\s*:\s*(.+)$', line)`, then
`line = f'{indent}"{prop_name}": {value}'` unless the stripped line
already starts with a quote.  The `\s*` before `(.+)` is greedy but
backtracks by one character when everything after the colon is
whitespace (`.+` must be non-empty). -/
def propNameFix (line : List Char) : List Char :=
  if ':' ∈ line then
    let indent := line.takeWhile isPyWs
    let r1 := line.drop indent.length
    match r1.head? with
    | some c0 =>
      if isIdentStart c0 then
        let prop := r1.takeWhile isIdentChar
        let r2 := (r1.drop prop.length).dropWhile isPyWs
        match r2 with
        | ':' :: after =>
          let v0 := after.dropWhile isPyWs
          let value? : Option (List Char) :=
            if v0.isEmpty then
              match after.getLast? with
              | some d => some [d]
              | none => none
            else some v0
          match value? with
          | some value =>
            if (pyStrip line).head? = some '"' then line
            else indent ++ '"' :: prop ++ '"' :: ':' :: ' ' :: value
          | none => line
        | _ => line
      else line
    | none => line
  else line

/-- The character-level scanner of one line: brace depth, bracket
depth and in-string flag (toggled on a quote whose preceding character
in the line is not a backslash).  Returns `none` as soon as a depth
counter would go negative (the line is structurally invalid). -/
def scanChars : List Char → Bool → Int → Int → Bool → Option (Int × Int × Bool)
  | [], _, b, k, ins => some (b, k, ins)
  | c :: t, prevBS, b, k, ins =>
    if c = '"' ∧ prevBS = false then
      scanChars t false b k (!ins)
    else if ins = false then
      if c = '{' then scanChars t (decide (c = '\\')) (b + 1) k ins
      else if c = '}' then
        if b - 1 < 0 then none else scanChars t (decide (c = '\\')) (b - 1) k ins
      else if c = '[' then scanChars t (decide (c = '\\')) b (k + 1) ins
      else if c = ']' then
        if k - 1 < 0 then none else scanChars t (decide (c = '\\')) b (k - 1) ins
      else scanChars t (decide (c = '\\')) b k ins
    else scanChars t (decide (c = '\\')) b k ins

/-- The line loop: strip each line, skip empty lines, accept a line iff
its scan stays non-negative, stop at the first invalid line.  An
accepted line left inside a string and not ending in a quote gets a
closing quote appended (resetting the flag). -/
def scanLinesAux : List (List Char) → Int → Int → Bool → (List (List Char) × Int × Int)
  | [], b, k, _ => ([], b, k)
  | ln :: rest, b, k, ins =>
    let ls := pyStrip ln
    if ls.isEmpty then scanLinesAux rest b k ins
    else
      match scanChars ls false b k ins with
      | none => ([], b, k)
      | some (b', k', ins') =>
        let lfix := if ins' = true ∧ ¬ endsWithC ls '"' then ls ++ ['"'] else ls
        let ins2 := if ins' = true ∧ ¬ endsWithC ls '"' then false else ins'
        let (acc, bf, kf) := scanLinesAux rest b' k' ins2
        (lfix :: acc, bf, kf)

/-- `_aggressive_json_repair`. -/
def aggressiveJsonRepair (l : List Char) : List Char :=
  let l1 := l.filter (fun c => !isCtrlRm c)
  let l2 := joinNl ((l1.splitOn '\n').map propNameFix)
  let (acc, b, k) := scanLinesAux (l2.splitOn '\n') 0 0 false
  let r := joinNl acc ++ List.replicate k.toNat ']' ++ List.replicate b.toNat '}'
  stripTrailingCommas r

/-! ## The inline response sanitizer (ernie_analyzer.py, lines 331-362) -/

def toolOpen : List Char := "<tool_call>".toList
def toolClose : List Char := "</tool_call>".toList

/-- `re.sub(r'<tool_call>.*?</tool_call>', '', text, flags=re.DOTALL)`:
remove each open tag together with everything up to the first close tag
after it.  When the first remaining open tag has no close tag after it,
no position matches at all (a close tag after any later open tag would
also lie after this one) and the text is unchanged.  Fuel recursion;
each step consumes at least the open tag, so `length + 1` suffices. -/
def removeToolSpansFuel : Nat → List Char → List Char
  | 0, l => l
  | fuel + 1, l =>
    match findSub? toolOpen l with
    | none => l
    | some i =>
      match findSub? toolClose (l.drop (i + toolOpen.length)) with
      | none => l
      | some j =>
        l.take i ++
          removeToolSpansFuel fuel
            ((l.drop (i + toolOpen.length)).drop (j + toolClose.length))

def removeToolSpans (l : List Char) : List Char := removeToolSpansFuel (l.length + 1) l

/-- `re.sub(r'<tool_call>.*', '', text, flags=re.DOTALL)`. -/
def truncAtOpen (l : List Char) : List Char :=
  match findSub? toolOpen l with
  | none => l
  | some i => l.take i

/-- Lines 331-336: both substitutions, guarded by the tag test. -/
def removeToolCalls (l : List Char) : List Char :=
  if occurs toolOpen l || occurs toolClose l then
    truncAtOpen (removeToolSpans l)
  else l

def fenceJson : List Char := "```json".toList
def fenceMark : List Char := "```".toList

/-- Lines 339-342: markdown fence extraction.
`text.split("```json")[1].split("```")[0].strip()` equals the stripped
prefix, before the first "```", of what follows the first "```json"
(a second "```json" occurrence itself starts with "```", so first
cutting there changes nothing); likewise for the plain-fence branch. -/
def extractFence (l : List Char) : List Char :=
  if occurs fenceJson l then
    match findSub? fenceJson l with
    | some i =>
      let rest := l.drop (i + fenceJson.length)
      match findSub? fenceMark rest with
      | some j => pyStrip (rest.take j)
      | none => pyStrip rest
    | none => l
  else if occurs fenceMark l then
    match findSub? fenceMark l with
    | some i =>
      let rest := l.drop (i + fenceMark.length)
      match findSub? fenceMark rest with
      | some j => pyStrip (rest.take j)
      | none => pyStrip rest
    | none => l
  else l

/-- Lines 348-362: the depth scan.  Returns the prefix ending at the
first position where the running `{`/`}` count returns to zero (the
scan deliberately ignores string boundaries), or `none` when the count
never returns to zero. -/
def btStep (bc : Int) (c : Char) : Int :=
  if c = '\x7b' then bc + 1 else if c = '\x7d' then bc - 1 else bc

def btAux (bc : Int) : List Char → Option (List Char)
  | [] => none
  | c :: t =>
    if c = '\x7d' ∧ btStep bc c = 0 then some [c]
    else (btAux (btStep bc c) t).map (c :: ·)

def braceTruncate (l : List Char) : List Char :=
  if l.head? = some '\x7b' then
    match btAux 0 l with
    | some pre => pre
    | none => l
  else l

/-- The whole sanitizing sequence applied to the raw model response. -/
def sanitizeResponse (l : List Char) : List Char :=
  braceTruncate (pyStrip (extractFence (removeToolCalls l)))

/-! ## String-level wrappers -/

def sanitizeText (s : String) : String := (sanitizeResponse s.toList).asString

def fixCommonJsonIssuesText (s : String) : String := (fixCommonJsonIssues s.toList).asString

def aggressiveJsonRepairText (s : String) : String := (aggressiveJsonRepair s.toList).asString

/-! ## Python operation model (`Except` for code that can raise) -/

abbrev PyM := Except String

/-- `v.get(k)`: only dicts have `.get`; a missing key yields `None`. -/
def pyGet (v : JValue) (k : String) : PyM JValue :=
  match v with
  | .obj fs => .ok ((jget? fs k).getD .null)
  | _ => .error "AttributeError: object has no attribute get"

/-- `k in v` (`str` membership is a substring test, list membership
compares `k` with each element, non-container types raise). -/
def pyContains (v : JValue) (k : String) : PyM Bool :=
  match v with
  | .obj fs => .ok (jhas fs k)
  | .arr xs => .ok (xs.any fun x => match x with | .str s => s = k | _ => false)
  | .str s => .ok (occurs k.toList s.toList)
  | _ => .error "TypeError: argument is not iterable"

/-- `v[k]` for a string key. -/
def pyIndex (v : JValue) (k : String) : PyM JValue :=
  match v with
  | .obj fs =>
    match jget? fs k with
    | some x => .ok x
    | none => .error "KeyError"
  | _ => .error "TypeError: indices must be integers"

/-- `v[i]` for an integer index. -/
def pyIndexNat (v : JValue) (i : Nat) : PyM JValue :=
  match v with
  | .arr xs =>
    match xs.get? i with
    | some x => .ok x
    | none => .error "IndexError"
  | .str s =>
    match s.toList.get? i with
    | some c => .ok (.str (String.mk [c]))
    | none => .error "IndexError"
  | _ => .error "TypeError: not subscriptable"

/-- `v[k] = x`. -/
def pySet (v : JValue) (k : String) (x : JValue) : PyM JValue :=
  match v with
  | .obj fs => .ok (.obj (jset fs k x))
  | _ => .error "TypeError: object does not support item assignment"

/-- `len(v)`. -/
def pyLen : JValue → PyM Nat
  | .str s => .ok s.length
  | .arr xs => .ok xs.length
  | .obj fs => .ok fs.length
  | _ => .error "TypeError: object has no len()"

mutual

/-- Python `repr`, used by `str(item)` on non-string values.  (Escaping
inside reprs of strings is not modelled; no theorem evaluates it.) -/
def pyRepr : JValue → String
  | .null => "None"
  | .bool true => "True"
  | .bool false => "False"
  | .int n => toString n
  | .str s => "'" ++ s ++ "'"
  | .arr xs => "[" ++ String.intercalate ", " (pyReprList xs) ++ "]"
  | .obj fs => "\x7b" ++ String.intercalate ", " (pyReprObj fs) ++ "\x7d"

def pyReprList : List JValue → List String
  | [] => []
  | x :: t => pyRepr x :: pyReprList t

def pyReprObj : JObj → List String
  | [] => []
  | (k, v) :: t => ("'" ++ k ++ "': " ++ pyRepr v) :: pyReprObj t

end

/-- Python `str`. -/
def pyStr : JValue → String
  | .str s => s
  | v => pyRepr v

/-! ## `_ensure_defaults` (ernie_analyzer.py, lines 833-1121) -/

/-- `_ensure_list`: replace a missing, `None` or string value by `[]`
(other non-list values are left alone). -/
def ensureList (o : JObj) (k : String) : JObj :=
  match jget? o k with
  | none => jset o k (.arr [])
  | some .null => jset o k (.arr [])
  | some (.str _) => jset o k (.arr [])
  | some _ => o

/-- `_ensure_dict`. -/
def ensureDict (o : JObj) (k : String) : JObj :=
  match jget? o k with
  | none => jset o k (.obj [])
  | some .null => jset o k (.obj [])
  | some (.str _) => jset o k (.obj [])
  | some _ => o

def requiredSections : List String :=
  ["executive_analysis", "technical_deep_dive", "tokenomics", "risk_analysis",
   "competitive_landscape", "technology_alternatives", "roadmap", "team_partnerships",
   "use_cases_adoption", "financial_analysis", "visualization_data", "overall_assessment"]

/-- The first loop of `_ensure_defaults`: a missing, `None` or string
section becomes `{}` (the `defaults` dict enumerates exactly the twelve
sections, each with default `{}`). -/
def edSections (d : JObj) : JObj :=
  requiredSections.foldl (fun d k =>
    match jget? d k with
    | none => jset d k (.obj [])
    | some .null => jset d k (.obj [])
    | some (.str _) => jset d k (.obj [])
    | some _ => d) d

def edRisk (d : JObj) : JObj :=
  match jget? d "risk_analysis" with
  | some (.obj ra) =>
    jset d "risk_analysis"
      (.obj (ensureList (ensureList (ensureList ra "technical_risks") "market_risks") "team_execution_risks"))
  | _ => d

def edTokenomics (d : JObj) : JObj :=
  match jget? d "tokenomics" with
  | some (.obj tok) =>
    let tok := ensureList (ensureList (ensureList (ensureList tok "utility") "distribution") "flow_nodes") "flow_connections"
    let tok := if jtruthy tok "token_name" then tok else jset tok "token_name" (.str "Not specified in whitepaper")
    let tok := if jtruthy tok "token_symbol" then tok else jset tok "token_symbol" (.str "N/A")
    let tok := if jtruthy tok "total_supply" then tok else jset tok "total_supply" (.str "Not specified in whitepaper")
    let tok := if jtruthy tok "utility" then tok
      else jset tok "utility" (.arr [.str "Token utility not specified in whitepaper"])
    let tok := if jtruthy tok "distribution" then tok
      else jset tok "distribution" (.arr [.obj
        [("category", .str "Information not available"),
         ("percentage", .str "Not disclosed"),
         ("vesting", .str "Not specified")]])
    let tok := if jtruthy tok "inflation_mechanism" then tok else jset tok "inflation_mechanism" (.str "Not specified in whitepaper")
    let tok := if jtruthy tok "deflation_mechanism" then tok else jset tok "deflation_mechanism" (.str "Not specified in whitepaper")
    let tok := if jtruthy tok "economic_sustainability" then tok
      else jset tok "economic_sustainability" (.str "Economic sustainability analysis not provided in whitepaper")
    jset d "tokenomics" (.obj tok)
  | _ => d

/-- Convert integer (including boolean, a Python `int` subclass)
competitor scores to strings; floats are not modelled. -/
def fixCompScores (c : JValue) : JValue :=
  match c with
  | .obj m =>
    if jhas m "competitor_scores" then
      match jget? m "competitor_scores" with
      | some (.obj cs) =>
        .obj (jset m "competitor_scores" (.obj (cs.map fun p =>
          (p.1, match p.2 with
                | .int n => .str (toString n)
                | .bool b => .str (if b then "True" else "False")
                | x => x))))
      | _ => c
    else c
  | x => x

def edCompetitive (d : JObj) : PyM JObj :=
  match jget? d "competitive_landscape" with
  | some (.obj cl) => do
    let cl := ensureList (ensureList (ensureList cl "direct_competitors") "feature_comparisons") "alternative_approaches"
    -- `if cl.get("direct_competitors"): for comp in cl["direct_competitors"]: ...`
    -- (iterating a dict walks its keys and mutates nothing; a truthy
    -- non-iterable raises)
    let dc := jgetD cl "direct_competitors" .null
    let cl ← if dc.truthy then
        match dc with
        | .arr comps => pure (jset cl "direct_competitors" (.arr (comps.map fun c =>
            match c with
            | .obj m => .obj (ensureList (ensureList m "strengths") "weaknesses")
            | x => x)))
        | .obj _ => pure cl
        | .str _ => pure cl
        | _ => Except.error "TypeError: not iterable"
      else pure cl
    let cl := if jhas cl "feature_comparisons" then
        let cl := match jgetD cl "feature_comparisons" .null with
          | .obj items =>
            -- dict of {feature_name: feature_data} re-keyed into a list
            jset cl "feature_comparisons" (.arr (items.filterMap fun p =>
              match p.2 with
              | .obj fm => some (.obj
                  [("feature", .str p.1),
                   ("project_score", jgetD fm "project_score" (.str "N/A")),
                   ("competitor_scores", jgetD fm "competitor_scores" (.obj []))])
              | _ => none))
          | _ => cl
        match jgetD cl "feature_comparisons" .null with
        | .arr comps => jset cl "feature_comparisons" (.arr (comps.map fixCompScores))
        | _ => cl
      else cl
    pure (jset d "competitive_landscape" (.obj cl))
  | _ => pure d

def edRoadmap (d : JObj) : JObj :=
  match jget? d "roadmap" with
  | some (.obj rm) =>
    let rm := ensureList (ensureList (ensureList rm "past_achievements") "future_milestones") "critical_path"
    let fixM (rm : JObj) (field : String) : JObj :=
      if jtruthy rm field then
        match jget? rm field with
        | some (.arr ms) => jset rm field (.arr (ms.map fun m =>
            match m with
            | .obj mm =>
              let mm := if jhas mm "title" then mm else jset mm "title" (jgetD mm "phase" (.str ""))
              let mm := if jhas mm "description" then mm else jset mm "description" (.str "")
              let mm := if jhas mm "phase" then mm else jset mm "phase" (.str "")
              .obj mm
            | x => x))
        | _ => rm
      else rm
    jset d "roadmap" (.obj (fixM (fixM rm "past_achievements") "future_milestones"))
  | _ => d

def edVisualization (d : JObj) : JObj :=
  match jget? d "visualization_data" with
  | some (.obj vd) =>
    jset d "visualization_data"
      (.obj (ensureList (ensureList (ensureList (ensureList vd "tech_stack_nodes") "tech_stack_connections") "risk_radar") "competitive_plots"))
  | _ => d

def edFinancial (d : JObj) : PyM JObj :=
  match jget? d "financial_analysis" with
  | some (.obj fa) => do
    let fa := if jhas fa "funding_allocation" then
        match jgetD fa "funding_allocation" .null with
        | .arr items =>
          -- list entries like "Development: 50%" re-keyed into a dict
          jset fa "funding_allocation" (.obj (items.foldl (fun acc item =>
            match item with
            | .str s =>
              match findSub? [':'] s.toList with
              | some i =>
                jset acc (pyStrip (s.toList.take i)).asString
                  (.str (pyStrip (s.toList.drop (i + 1))).asString)
              | none => acc
            | _ => acc) []))
        | .obj _ => fa
        | _ => jset fa "funding_allocation" (.obj [])
      else ensureDict fa "funding_allocation"
    let fa := ensureList fa "token_value_drivers"
    let fa ← if jhas fa "revenue_model" then
        match jgetD fa "revenue_model" .null with
        | .arr items => do
          let strs ← items.mapM fun it =>
            match it with
            | .str s => Except.ok s
            | _ => Except.error "TypeError: sequence item: expected str instance"
          pure (jset fa "revenue_model" (.str (String.intercalate ", " strs)))
        | _ => pure fa
      else pure fa
    let fa := if jtruthy fa "funding_raised" then fa else jset fa "funding_raised" (.str "Not disclosed in whitepaper")
    -- `not fa.get(...) or len(...) == 0`: the value is a dict at this
    -- point, so emptiness and falsiness coincide
    let fa := if jtruthy fa "funding_allocation" then fa
      else jset fa "funding_allocation" (.obj [("Information", .str "Not available in whitepaper")])
    let fa := if jtruthy fa "revenue_model" then fa else jset fa "revenue_model" (.str "Revenue model not specified in whitepaper")
    let fa := if jtruthy fa "token_value_drivers" then fa
      else jset fa "token_value_drivers" (.arr [.str "Token value drivers not specified in whitepaper"])
    let fa := if jtruthy fa "bull_case" then fa else jset fa "bull_case" (.str "Bull case scenario not provided in whitepaper")
    let fa := if jtruthy fa "bear_case" then fa else jset fa "bear_case" (.str "Bear case scenario not provided in whitepaper")
    pure (jset d "financial_analysis" (.obj fa))
  | _ => pure d

/-- Parse `"Name (role)"` into a member record (`split(" (")[1]` is the
segment between the first and second `" ("`). -/
def parseMemberStr (s : String) : JValue :=
  let l := s.toList
  let sep : List Char := [' ', '(']
  match findSub? sep l with
  | some i =>
    let rest := l.drop (i + 2)
    let rolePart := match findSub? sep rest with
      | some j => rest.take j
      | none => rest
    .obj [("name", .str (l.take i).asString),
          ("role", .str (rstripBy (· = ')') rolePart).asString),
          ("experience", .str ""), ("linkedin", .str "")]
  | none =>
    .obj [("name", .str s), ("role", .str "Team Member"),
          ("experience", .str ""), ("linkedin", .str "")]

def fillMember (m : JObj) : JObj :=
  let m := if jhas m "name" then m else jset m "name" (.str "")
  let m := if jhas m "role" then m else jset m "role" (.str "Team Member")
  let m := if jhas m "experience" then m else jset m "experience" (.str "")
  if jhas m "linkedin" then m else jset m "linkedin" (.str "")

/-- String/dict entries are converted/completed; entries of any other
type are dropped. -/
def fixMembers (items : List JValue) : List JValue :=
  items.filterMap fun it =>
    match it with
    | .str s => some (parseMemberStr s)
    | .obj m => some (.obj (fillMember m))
    | _ => none

def parsePartnershipStr (s : String) : JValue :=
  let l := s.toList
  let sep : List Char := [' ', '(']
  if occurs sep l ∧ endsWithC l ')' then
    let i := (findSub? sep l).getD 0
    let rest := l.drop (i + 2)
    let typePart := match findSub? sep rest with
      | some j => rest.take j
      | none => rest
    .obj [("partner", .str (l.take i).asString),
          ("type", .str (rstripBy (· = ')') typePart).asString),
          ("significance", .str "Key partnership")]
  else
    .obj [("partner", .str s), ("type", .str "Strategic"),
          ("significance", .str "Key partnership")]

def fillPartnership (m : JObj) : JObj :=
  let m := if jhas m "partner" then m else jset m "partner" (.str "")
  let m := if jhas m "type" then m else jset m "type" (.str "Strategic")
  if jhas m "significance" then m else jset m "significance" (.str "")

def fixPartnerships (items : List JValue) : List JValue :=
  items.filterMap fun it =>
    match it with
    | .str s => some (parsePartnershipStr s)
    | .obj m => some (.obj (fillPartnership m))
    | _ => none

def edTeam (d : JObj) : JObj :=
  match jget? d "team_partnerships" with
  | some (.obj tp) =>
    let fixField (tp : JObj) (field : String) (fix : List JValue → List JValue) : JObj :=
      if jhas tp field then
        match jget? tp field with
        | some (.arr items) => jset tp field (.arr (fix items))
        | _ => ensureList tp field
      else ensureList tp field
    let tp := fixField tp "team_members" fixMembers
    let tp := fixField tp "advisors" fixMembers
    let tp := fixField tp "partnerships" fixPartnerships
    let tp := if jtruthy tp "team_members" then tp
      else jset tp "team_members" (.arr [.obj
        [("name", .str "Information not available"),
         ("role", .str "Team information not disclosed in whitepaper"),
         ("experience", .str ""), ("linkedin", .str "")]])
    let tp := if jtruthy tp "advisors" then tp
      else jset tp "advisors" (.arr [.obj
        [("name", .str "Information not available"),
         ("role", .str "Advisor information not disclosed in whitepaper"),
         ("experience", .str ""), ("linkedin", .str "")]])
    let tp := if jtruthy tp "partnerships" then tp
      else jset tp "partnerships" (.arr [.obj
        [("partner", .str "Information not available"),
         ("type", .str "Not disclosed"),
         ("significance", .str "Partnership information not available in whitepaper")]])
    let tp := if jtruthy tp "community_size" then tp else jset tp "community_size" (.str "Not specified in whitepaper")
    let tp := if jtruthy tp "community_engagement" then tp else jset tp "community_engagement" (.str "Not specified in whitepaper")
    jset d "team_partnerships" (.obj tp)
  | _ => d

def edUseCases (d : JObj) : JObj :=
  match jget? d "use_cases_adoption" with
  | some (.obj uca) =>
    jset d "use_cases_adoption"
      (.obj (ensureList (ensureList (ensureList (ensureList uca "primary_use_cases") "target_segments") "adoption_barriers") "traction_evidence"))
  | _ => d

/-- `item.get("alternative") or item.get("name") or str(item)`. -/
def altExtract (m : JObj) : JValue :=
  let a := jgetD m "alternative" .null
  if a.truthy then a
  else
    let b := jgetD m "name" .null
    if b.truthy then b
    else .str (pyStr (.obj m))

/-- The technology-alternatives cleaning pass: dict entries are replaced
by their extracted value, string entries are kept, entries of any other
type are dropped. -/
def cleanAltList (items : List JValue) : List JValue :=
  items.filterMap fun it =>
    match it with
    | .obj m => some (altExtract m)
    | .str s => some (.str s)
    | _ => none

def edTechnologyAlternatives (d : JObj) : JObj :=
  match jget? d "technology_alternatives" with
  | some (.obj ta) =>
    let step (ta : JObj) (field : String) : JObj :=
      let ta := ensureList ta field
      if jtruthy ta field then
        match jget? ta field with
        | some (.arr items) => jset ta field (.arr (cleanAltList items))
        | _ => ta
      else ta
    jset d "technology_alternatives"
      (.obj (step (step (step ta "current_tech_stack") "alternatives") "emerging_disruptions"))
  | _ => d

def edTechnical (d : JObj) : JObj :=
  match jget? d "technical_deep_dive" with
  | some (.obj td) =>
    jset d "technical_deep_dive"
      (.obj (ensureList (ensureList (ensureList td "design_patterns") "scalability_solutions") "security_measures"))
  | _ => d

/-- `_ensure_defaults`, in source order. -/
def ensureDefaults (d : JObj) : PyM JObj := do
  let d := edSections d
  let d := edRisk d
  let d := edTokenomics d
  let d ← edCompetitive d
  let d := edRoadmap d
  let d := edVisualization d
  let d ← edFinancial d
  let d := edTeam d
  let d := edUseCases d
  let d := edTechnologyAlternatives d
  pure (edTechnical d)

/-! ## `_validate_analysis_completeness` (ernie_analyzer.py, lines 619-705)

Each block below reads one section (an alias into `data`, which is
present after the first loop), transforms it, and is modelled as a
single write-back of that section key.  When a block raises midway,
Python leaves `data` partially mutated, but the caller then discards
`data` (the attempt fails), so modelling the raise as failing the whole
block is observationally equivalent. -/

/-- One step of the first loop: a missing or `None` section becomes
`{}`. -/
def vFillStep (d : JObj) (k : String) : JObj :=
  match jget? d k with
  | none => jset d k (.obj [])
  | some .null => jset d k (.obj [])
  | some _ => d

/-- The first loop of `_validate_analysis_completeness`
(`required_sections` is the same twelve names). -/
def vFillSections (d : JObj) : JObj :=
  requiredSections.foldl vFillStep d

/-- `tp["team_members"][0].get("name") == ""` (Python `==` of a
non-string with `""` is `False`, without raising). -/
def eqEmptyStr (v : JValue) : Bool :=
  match v with
  | .str s => s == ""
  | _ => false

def vTeamBody (d : JObj) : PyM JValue := do
  let tp := jgetD d "team_partnerships" (.obj [])
  let g ← pyGet tp "team_members"
  let cond ←
    if g.truthy = false then pure true
    else do
      let tm ← pyIndex tp "team_members"
      let n ← pyLen tm
      if n = 1 then do
        let first ← pyIndexNat tm 0
        let nm ← pyGet first "name"
        pure (eqEmptyStr nm)
      else pure false
  if cond then
    pySet tp "team_members" (.arr [.obj
      [("name", .str "Team information not disclosed"),
       ("role", .str "Information not available in whitepaper"),
       ("experience", .str ""), ("linkedin", .str "")]])
  else pure tp

def vTeam (d : JObj) : PyM JObj :=
  (vTeamBody d).map (jset d "team_partnerships")

def vTokBody (d : JObj) : PyM JValue := do
  let tok := jgetD d "tokenomics" (.obj [])
  let g ← pyGet tok "token_name"
  -- `not tok.get(k) or tok[k] == ""` (the second disjunct is only
  -- evaluated when the value is truthy, hence present)
  let tok ← if g.truthy = false then
      pySet tok "token_name" (.str "Token name not specified")
    else do
      let v ← pyIndex tok "token_name"
      if eqEmptyStr v then pySet tok "token_name" (.str "Token name not specified") else pure tok
  let g2 ← pyGet tok "token_symbol"
  if g2.truthy = false then pySet tok "token_symbol" (.str "N/A")
  else do
    let v ← pyIndex tok "token_symbol"
    if eqEmptyStr v then pySet tok "token_symbol" (.str "N/A") else pure tok

def vTok (d : JObj) : PyM JObj :=
  (vTokBody d).map (jset d "tokenomics")

def vFinBody (d : JObj) : PyM JValue := do
  let fa := jgetD d "financial_analysis" (.obj [])
  let g ← pyGet fa "funding_allocation"
  let cond ←
    if g.truthy = false then pure true
    else do
      let v ← pyIndex fa "funding_allocation"
      let n ← pyLen v
      pure (n == 0)
  if cond then
    pySet fa "funding_allocation" (.obj [("Information", .str "Not disclosed in whitepaper")])
  else pure fa

def vFin (d : JObj) : PyM JObj :=
  (vFinBody d).map (jset d "financial_analysis")

def scoreFields : List String :=
  ["innovation_score", "technical_viability", "team_capability",
   "market_opportunity", "risk_adjusted_rating"]

/-- `not isinstance(v, int) or v < 1 or v > 10` — Python `bool` is an
`int` subclass, so `True` (= 1) passes the range check and is kept. -/
def scoreNeedsFix (v : JValue) : Bool :=
  match v with
  | .int n => decide (n < 1 ∨ n > 10)
  | .bool b => !b
  | _ => true

def vScoreStep (oa : JValue) (f : String) : PyM JValue := do
  let has ← pyContains oa f
  if has then do
    let cur ← pyIndex oa f
    if scoreNeedsFix cur then pySet oa f (.int 5) else pure oa
  else pySet oa f (.int 5)

def validRecommendations : List String := ["Strong Buy", "Buy", "Hold", "Avoid"]

def vOverallBody (d : JObj) : PyM JValue := do
  let oa := jgetD d "overall_assessment" (.obj [])
  let oa ← scoreFields.foldlM vScoreStep oa
  let has ← pyContains oa "investment_recommendation"
  let oa ← if has then do
      let v ← pyIndex oa "investment_recommendation"
      let ok := match v with
        | .str s => validRecommendations.contains s
        | _ => false
      if ok then pure oa else pySet oa "investment_recommendation" (.str "Hold")
    else pySet oa "investment_recommendation" (.str "Hold")
  let hasJ ← pyContains oa "recommendation_justification"
  if hasJ then pure oa
  else pySet oa "recommendation_justification" (.str "Analysis completed with limited information available")

def vOverall (d : JObj) : PyM JObj :=
  (vOverallBody d).map (jset d "overall_assessment")

def vTechBody (d : JObj) : PyM JValue := do
  let td := jgetD d "technical_deep_dive" (.obj [])
  let has ← pyContains td "technical_innovation_score"
  if has then do
    let cur ← pyIndex td "technical_innovation_score"
    if scoreNeedsFix cur then pySet td "technical_innovation_score" (.int 5) else pure td
  else pySet td "technical_innovation_score" (.int 5)

def vTech (d : JObj) : PyM JObj :=
  (vTechBody d).map (jset d "technical_deep_dive")

/-- Radar score check: `not isinstance(s, int) or s < 0 or s > 10`
(range 0-10 here; both booleans are in range). -/
def radarFix (item : JValue) : JValue :=
  match item with
  | .obj m =>
    if jhas m "score" then
      let s := jgetD m "score" .null
      let bad := match s with
        | .int n => decide (n < 0 ∨ n > 10)
        | .bool _ => false
        | _ => true
      if bad then .obj (jset m "score" (.int 5)) else item
    else item
  | x => x

def vRadarBody (d : JObj) : PyM JValue := do
  let vd := jgetD d "visualization_data" (.obj [])
  let has ← pyContains vd "risk_radar"
  if has then do
    let rr ← pyIndex vd "risk_radar"
    match rr with
    | .arr items => pySet vd "risk_radar" (.arr (items.map radarFix))
    | _ => pure vd
  else pure vd

def vRadar (d : JObj) : PyM JObj :=
  (vRadarBody d).map (jset d "visualization_data")

/-- `_validate_analysis_completeness`, in source order. -/
def validateAnalysisCompleteness (d : JObj) : PyM JObj := do
  let d := vFillSections d
  let d ← vTeam d
  let d ← vTok d
  let d ← vFin d
  let d ← vOverall d
  let d ← vTech d
  vRadar d

/-- The normalization pipeline applied to a parsed value in
`analyze_whitepaper`: `_ensure_defaults` then
`_validate_analysis_completeness`.  A non-dict parsed value raises in
Python as soon as `_ensure_defaults` touches it (membership test or
item assignment on a non-dict), modelled as an immediate error. -/
def normalizeParsed (v : JValue) : PyM JValue :=
  match v with
  | .obj d => do
    let d1 ← ensureDefaults d
    let d2 ← validateAnalysisCompleteness d1
    pure (.obj d2)
  | _ => .error "TypeError: parsed value is not a dict"

/-! ## The Pydantic models (models/schemas.py)

`fromJson` models `Model(**dict)` validation: exact JSON types are
accepted, missing fields take the declared default, required fields
missing or ill-typed raise a `ValidationError`, extra keys are ignored.
(Pydantic's lax coercions — numeric strings to int, integral floats —
are never exercised by the inputs this development evaluates and are
modelled as errors.) -/

def jStrField (m : JObj) (k : String) (dflt : String) : PyM String :=
  match jget? m k with
  | none => .ok dflt
  | some (.str s) => .ok s
  | some _ => .error ("ValidationError: " ++ k)

def jStrReq (m : JObj) (k : String) : PyM String :=
  match jget? m k with
  | some (.str s) => .ok s
  | _ => .error ("ValidationError: " ++ k)

def jIntField (m : JObj) (k : String) (dflt : Int) : PyM Int :=
  match jget? m k with
  | none => .ok dflt
  | some (.int n) => .ok n
  | some _ => .error ("ValidationError: " ++ k)

def jIntReq (m : JObj) (k : String) : PyM Int :=
  match jget? m k with
  | some (.int n) => .ok n
  | _ => .error ("ValidationError: " ++ k)

def jBoolField (m : JObj) (k : String) (dflt : Bool) : PyM Bool :=
  match jget? m k with
  | none => .ok dflt
  | some (.bool b) => .ok b
  | some _ => .error ("ValidationError: " ++ k)

def jStrListField (m : JObj) (k : String) : PyM (List String) :=
  match jget? m k with
  | none => .ok []
  | some (.arr xs) => xs.mapM fun x =>
      match x with
      | .str s => Except.ok s
      | _ => Except.error ("ValidationError: " ++ k)
  | some _ => .error ("ValidationError: " ++ k)

def jListField (parse : JValue → PyM α) (m : JObj) (k : String) : PyM (List α) :=
  match jget? m k with
  | none => .ok []
  | some (.arr xs) => xs.mapM parse
  | some _ => .error ("ValidationError: " ++ k)

/-- `Dict[str, str]` -/
def jStrMapField (m : JObj) (k : String) : PyM (List (String × String)) :=
  match jget? m k with
  | none => .ok []
  | some (.obj fs) => fs.mapM fun p =>
      match p.2 with
      | .str s => Except.ok (p.1, s)
      | _ => Except.error ("ValidationError: " ++ k)
  | some _ => .error ("ValidationError: " ++ k)

structure ExecutiveAnalysis where
  project_name : String := ""
  tagline : String := ""
  core_value_proposition : String := ""
  target_problem : String := ""
  solution_approach : String := ""
  market_positioning : String := ""
  competitive_moat : String := ""
deriving Repr

def ExecutiveAnalysis.fromJson : JValue → PyM ExecutiveAnalysis
  | .obj m => do
    let project_name ← jStrField m "project_name" ""
    let tagline ← jStrField m "tagline" ""
    let core_value_proposition ← jStrField m "core_value_proposition" ""
    let target_problem ← jStrField m "target_problem" ""
    let solution_approach ← jStrField m "solution_approach" ""
    let market_positioning ← jStrField m "market_positioning" ""
    let competitive_moat ← jStrField m "competitive_moat" ""
    pure { project_name, tagline, core_value_proposition, target_problem,
           solution_approach, market_positioning, competitive_moat }
  | _ => .error "ValidationError: executive_analysis"

structure TechnicalDeepDive where
  architecture_overview : String := ""
  design_patterns : List String := []
  consensus_mechanism : String := ""
  consensus_details : String := ""
  smart_contract_functionality : String := ""
  smart_contract_limitations : String := ""
  scalability_solutions : List String := []
  security_measures : List String := []
  audit_status : String := ""
  interoperability : String := ""
  technical_innovation_score : Int := 5
  innovation_justification : String := ""
deriving Repr

def TechnicalDeepDive.fromJson : JValue → PyM TechnicalDeepDive
  | .obj m => do
    let architecture_overview ← jStrField m "architecture_overview" ""
    let design_patterns ← jStrListField m "design_patterns"
    let consensus_mechanism ← jStrField m "consensus_mechanism" ""
    let consensus_details ← jStrField m "consensus_details" ""
    let smart_contract_functionality ← jStrField m "smart_contract_functionality" ""
    let smart_contract_limitations ← jStrField m "smart_contract_limitations" ""
    let scalability_solutions ← jStrListField m "scalability_solutions"
    let security_measures ← jStrListField m "security_measures"
    let audit_status ← jStrField m "audit_status" ""
    let interoperability ← jStrField m "interoperability" ""
    let technical_innovation_score ← jIntField m "technical_innovation_score" 5
    let innovation_justification ← jStrField m "innovation_justification" ""
    pure { architecture_overview, design_patterns, consensus_mechanism, consensus_details,
           smart_contract_functionality, smart_contract_limitations, scalability_solutions,
           security_measures, audit_status, interoperability, technical_innovation_score,
           innovation_justification }
  | _ => .error "ValidationError: technical_deep_dive"

structure TokenDistribution where
  category : String
  percentage : String
  vesting : String := ""
deriving Repr

def TokenDistribution.fromJson : JValue → PyM TokenDistribution
  | .obj m => do
    let category ← jStrReq m "category"
    let percentage ← jStrReq m "percentage"
    let vesting ← jStrField m "vesting" ""
    pure { category, percentage, vesting }
  | _ => .error "ValidationError: distribution item"

structure TokenFlowNode where
  id : String
  label : String
  type : String
deriving Repr

def TokenFlowNode.fromJson : JValue → PyM TokenFlowNode
  | .obj m => do
    let id ← jStrReq m "id"
    let label ← jStrReq m "label"
    let type ← jStrReq m "type"
    pure { id, label, type }
  | _ => .error "ValidationError: flow node"

structure TokenFlowConnection where
  source : String
  target : String
  label : String
deriving Repr

def TokenFlowConnection.fromJson : JValue → PyM TokenFlowConnection
  | .obj m => do
    let source ← jStrReq m "source"
    let target ← jStrReq m "target"
    let label ← jStrReq m "label"
    pure { source, target, label }
  | _ => .error "ValidationError: flow connection"

structure TokenomicsBreakdown where
  token_name : String := ""
  token_symbol : String := ""
  total_supply : String := ""
  utility : List String := []
  distribution : List TokenDistribution := []
  inflation_mechanism : String := ""
  deflation_mechanism : String := ""
  economic_sustainability : String := ""
  flow_nodes : List TokenFlowNode := []
  flow_connections : List TokenFlowConnection := []
deriving Repr

def TokenomicsBreakdown.fromJson : JValue → PyM TokenomicsBreakdown
  | .obj m => do
    let token_name ← jStrField m "token_name" ""
    let token_symbol ← jStrField m "token_symbol" ""
    let total_supply ← jStrField m "total_supply" ""
    let utility ← jStrListField m "utility"
    let distribution ← jListField TokenDistribution.fromJson m "distribution"
    let inflation_mechanism ← jStrField m "inflation_mechanism" ""
    let deflation_mechanism ← jStrField m "deflation_mechanism" ""
    let economic_sustainability ← jStrField m "economic_sustainability" ""
    let flow_nodes ← jListField TokenFlowNode.fromJson m "flow_nodes"
    let flow_connections ← jListField TokenFlowConnection.fromJson m "flow_connections"
    pure { token_name, token_symbol, total_supply, utility, distribution,
           inflation_mechanism, deflation_mechanism, economic_sustainability,
           flow_nodes, flow_connections }
  | _ => .error "ValidationError: tokenomics"

structure RiskItem where
  risk : String
  description : String
  severity : String := "Medium"
  probability : String := "Medium"
deriving Repr

def RiskItem.fromJson : JValue → PyM RiskItem
  | .obj m => do
    let risk ← jStrReq m "risk"
    let description ← jStrReq m "description"
    let severity ← jStrField m "severity" "Medium"
    let probability ← jStrField m "probability" "Medium"
    pure { risk, description, severity, probability }
  | _ => .error "ValidationError: risk item"

structure RiskAnalysis where
  technical_risks : List RiskItem := []
  market_risks : List RiskItem := []
  team_execution_risks : List RiskItem := []
  overall_risk_level : String := "Medium"
deriving Repr

def RiskAnalysis.fromJson : JValue → PyM RiskAnalysis
  | .obj m => do
    let technical_risks ← jListField RiskItem.fromJson m "technical_risks"
    let market_risks ← jListField RiskItem.fromJson m "market_risks"
    let team_execution_risks ← jListField RiskItem.fromJson m "team_execution_risks"
    let overall_risk_level ← jStrField m "overall_risk_level" "Medium"
    pure { technical_risks, market_risks, team_execution_risks, overall_risk_level }
  | _ => .error "ValidationError: risk_analysis"

structure Competitor where
  name : String
  description : String
  strengths : List String := []
  weaknesses : List String := []
deriving Repr

def Competitor.fromJson : JValue → PyM Competitor
  | .obj m => do
    let name ← jStrReq m "name"
    let description ← jStrReq m "description"
    let strengths ← jStrListField m "strengths"
    let weaknesses ← jStrListField m "weaknesses"
    pure { name, description, strengths, weaknesses }
  | _ => .error "ValidationError: competitor"

structure FeatureComparison where
  feature : String
  project_score : String
  competitor_scores : List (String × String) := []
deriving Repr

def FeatureComparison.fromJson : JValue → PyM FeatureComparison
  | .obj m => do
    let feature ← jStrReq m "feature"
    let project_score ← jStrReq m "project_score"
    let competitor_scores ← jStrMapField m "competitor_scores"
    pure { feature, project_score, competitor_scores }
  | _ => .error "ValidationError: feature comparison"

structure CompetitiveLandscape where
  direct_competitors : List Competitor := []
  feature_comparisons : List FeatureComparison := []
  technology_differentiation : String := ""
  alternative_approaches : List String := []
deriving Repr

def CompetitiveLandscape.fromJson : JValue → PyM CompetitiveLandscape
  | .obj m => do
    let direct_competitors ← jListField Competitor.fromJson m "direct_competitors"
    let feature_comparisons ← jListField FeatureComparison.fromJson m "feature_comparisons"
    let technology_differentiation ← jStrField m "technology_differentiation" ""
    let alternative_approaches ← jStrListField m "alternative_approaches"
    pure { direct_competitors, feature_comparisons, technology_differentiation,
           alternative_approaches }
  | _ => .error "ValidationError: competitive_landscape"

structure TechnologyAlternatives where
  current_tech_stack : List String := []
  why_chosen : String := ""
  alternatives : List String := []
  tradeoffs : String := ""
  emerging_disruptions : List String := []
  is_optimal : Bool := true
  optimization_reasoning : String := ""
deriving Repr

def TechnologyAlternatives.fromJson : JValue → PyM TechnologyAlternatives
  | .obj m => do
    let current_tech_stack ← jStrListField m "current_tech_stack"
    let why_chosen ← jStrField m "why_chosen" ""
    let alternatives ← jStrListField m "alternatives"
    let tradeoffs ← jStrField m "tradeoffs" ""
    let emerging_disruptions ← jStrListField m "emerging_disruptions"
    let is_optimal ← jBoolField m "is_optimal" true
    let optimization_reasoning ← jStrField m "optimization_reasoning" ""
    pure { current_tech_stack, why_chosen, alternatives, tradeoffs,
           emerging_disruptions, is_optimal, optimization_reasoning }
  | _ => .error "ValidationError: technology_alternatives"

structure Milestone where
  phase : String := ""
  title : String := ""
  description : String := ""
  timeline : String := ""
  status : String := "Planned"
deriving Repr

def Milestone.fromJson : JValue → PyM Milestone
  | .obj m => do
    let phase ← jStrField m "phase" ""
    let title ← jStrField m "title" ""
    let description ← jStrField m "description" ""
    let timeline ← jStrField m "timeline" ""
    let status ← jStrField m "status" "Planned"
    pure { phase, title, description, timeline, status }
  | _ => .error "ValidationError: milestone"

structure RoadmapAnalysis where
  past_achievements : List Milestone := []
  current_phase : String := ""
  future_milestones : List Milestone := []
  critical_path : List String := []
  roadmap_risk : String := ""
deriving Repr

def RoadmapAnalysis.fromJson : JValue → PyM RoadmapAnalysis
  | .obj m => do
    let past_achievements ← jListField Milestone.fromJson m "past_achievements"
    let current_phase ← jStrField m "current_phase" ""
    let future_milestones ← jListField Milestone.fromJson m "future_milestones"
    let critical_path ← jStrListField m "critical_path"
    let roadmap_risk ← jStrField m "roadmap_risk" ""
    pure { past_achievements, current_phase, future_milestones, critical_path, roadmap_risk }
  | _ => .error "ValidationError: roadmap"

structure TeamMember where
  name : String
  role : String
  experience : String := ""
  linkedin : String := ""
deriving Repr

def TeamMember.fromJson : JValue → PyM TeamMember
  | .obj m => do
    let name ← jStrReq m "name"
    let role ← jStrReq m "role"
    let experience ← jStrField m "experience" ""
    let linkedin ← jStrField m "linkedin" ""
    pure { name, role, experience, linkedin }
  | _ => .error "ValidationError: team member"

structure Partnership where
  partner : String
  type : String
  significance : String
deriving Repr

def Partnership.fromJson : JValue → PyM Partnership
  | .obj m => do
    let partner ← jStrReq m "partner"
    let type ← jStrReq m "type"
    let significance ← jStrReq m "significance"
    pure { partner, type, significance }
  | _ => .error "ValidationError: partnership"

structure TeamPartnerships where
  team_members : List TeamMember := []
  advisors : List TeamMember := []
  partnerships : List Partnership := []
  community_size : String := ""
  community_engagement : String := ""
deriving Repr

def TeamPartnerships.fromJson : JValue → PyM TeamPartnerships
  | .obj m => do
    let team_members ← jListField TeamMember.fromJson m "team_members"
    let advisors ← jListField TeamMember.fromJson m "advisors"
    let partnerships ← jListField Partnership.fromJson m "partnerships"
    let community_size ← jStrField m "community_size" ""
    let community_engagement ← jStrField m "community_engagement" ""
    pure { team_members, advisors, partnerships, community_size, community_engagement }
  | _ => .error "ValidationError: team_partnerships"

structure UseCase where
  title : String
  description : String
  «example» : String := ""
deriving Repr

def UseCase.fromJson : JValue → PyM UseCase
  | .obj m => do
    let title ← jStrReq m "title"
    let description ← jStrReq m "description"
    let ex ← jStrField m "example" ""
    pure { title, description, «example» := ex }
  | _ => .error "ValidationError: use case"

structure UseCasesAdoption where
  primary_use_cases : List UseCase := []
  target_segments : List String := []
  adoption_barriers : List String := []
  network_effects : String := ""
  traction_evidence : List String := []
deriving Repr

def UseCasesAdoption.fromJson : JValue → PyM UseCasesAdoption
  | .obj m => do
    let primary_use_cases ← jListField UseCase.fromJson m "primary_use_cases"
    let target_segments ← jStrListField m "target_segments"
    let adoption_barriers ← jStrListField m "adoption_barriers"
    let network_effects ← jStrField m "network_effects" ""
    let traction_evidence ← jStrListField m "traction_evidence"
    pure { primary_use_cases, target_segments, adoption_barriers, network_effects,
           traction_evidence }
  | _ => .error "ValidationError: use_cases_adoption"

structure FinancialAnalysis where
  funding_raised : String := ""
  /-- `Optional[Dict[str, Any]]` with default `{}` -/
  funding_allocation : Option JObj := some []
  /-- `Any` (string or list in practice) with default `""` -/
  revenue_model : JValue := .str ""
  token_value_drivers : List String := []
  bull_case : String := ""
  bear_case : String := ""
deriving Repr

def FinancialAnalysis.fromJson : JValue → PyM FinancialAnalysis
  | .obj m => do
    let funding_raised ← jStrField m "funding_raised" ""
    let funding_allocation ←
      match jget? m "funding_allocation" with
      | none => Except.ok (some ([] : JObj))
      | some .null => Except.ok none
      | some (.obj fs) => Except.ok (some fs)
      | some _ => Except.error "ValidationError: funding_allocation"
    let revenue_model :=
      match jget? m "revenue_model" with
      | none => JValue.str ""
      | some v => v
    let token_value_drivers ← jStrListField m "token_value_drivers"
    let bull_case ← jStrField m "bull_case" ""
    let bear_case ← jStrField m "bear_case" ""
    pure { funding_raised, funding_allocation, revenue_model, token_value_drivers,
           bull_case, bear_case }
  | _ => .error "ValidationError: financial_analysis"

structure DiagramNode where
  id : String
  label : String
  type : String := ""
deriving Repr

def DiagramNode.fromJson : JValue → PyM DiagramNode
  | .obj m => do
    let id ← jStrReq m "id"
    let label ← jStrReq m "label"
    let type ← jStrField m "type" ""
    pure { id, label, type }
  | _ => .error "ValidationError: diagram node"

structure DiagramConnection where
  source : String
  target : String
  label : String := ""
deriving Repr

def DiagramConnection.fromJson : JValue → PyM DiagramConnection
  | .obj m => do
    let source ← jStrReq m "source"
    let target ← jStrReq m "target"
    let label ← jStrField m "label" ""
    pure { source, target, label }
  | _ => .error "ValidationError: diagram connection"

structure RadarDataPoint where
  dimension : String
  score : Int
deriving Repr

def RadarDataPoint.fromJson : JValue → PyM RadarDataPoint
  | .obj m => do
    let dimension ← jStrReq m "dimension"
    let score ← jIntReq m "score"
    pure { dimension, score }
  | _ => .error "ValidationError: radar data point"

structure CompetitorPlot where
  name : String
  /-- `float` in the source; only integral values arise here. -/
  x : Int
  y : Int
deriving Repr

def CompetitorPlot.fromJson : JValue → PyM CompetitorPlot
  | .obj m => do
    let name ← jStrReq m "name"
    let x ← jIntReq m "x"
    let y ← jIntReq m "y"
    pure { name, x, y }
  | _ => .error "ValidationError: competitor plot"

structure VisualizationData where
  tech_stack_nodes : List DiagramNode := []
  tech_stack_connections : List DiagramConnection := []
  risk_radar : List RadarDataPoint := []
  competitive_matrix_x_axis : String := "Decentralization"
  competitive_matrix_y_axis : String := "Scalability"
  competitive_plots : List CompetitorPlot := []
deriving Repr

def VisualizationData.fromJson : JValue → PyM VisualizationData
  | .obj m => do
    let tech_stack_nodes ← jListField DiagramNode.fromJson m "tech_stack_nodes"
    let tech_stack_connections ← jListField DiagramConnection.fromJson m "tech_stack_connections"
    let risk_radar ← jListField RadarDataPoint.fromJson m "risk_radar"
    let competitive_matrix_x_axis ← jStrField m "competitive_matrix_x_axis" "Decentralization"
    let competitive_matrix_y_axis ← jStrField m "competitive_matrix_y_axis" "Scalability"
    let competitive_plots ← jListField CompetitorPlot.fromJson m "competitive_plots"
    pure { tech_stack_nodes, tech_stack_connections, risk_radar,
           competitive_matrix_x_axis, competitive_matrix_y_axis, competitive_plots }
  | _ => .error "ValidationError: visualization_data"

structure OverallAssessment where
  innovation_score : Int := 5
  technical_viability : Int := 5
  team_capability : Int := 5
  market_opportunity : Int := 5
  risk_adjusted_rating : Int := 5
  investment_recommendation : String := "Hold"
  recommendation_justification : String := ""
deriving Repr

def OverallAssessment.fromJson : JValue → PyM OverallAssessment
  | .obj m => do
    let innovation_score ← jIntField m "innovation_score" 5
    let technical_viability ← jIntField m "technical_viability" 5
    let team_capability ← jIntField m "team_capability" 5
    let market_opportunity ← jIntField m "market_opportunity" 5
    let risk_adjusted_rating ← jIntField m "risk_adjusted_rating" 5
    let investment_recommendation ← jStrField m "investment_recommendation" "Hold"
    let recommendation_justification ← jStrField m "recommendation_justification" ""
    pure { innovation_score, technical_viability, team_capability, market_opportunity,
           risk_adjusted_rating, investment_recommendation, recommendation_justification }
  | _ => .error "ValidationError: overall_assessment"

structure AnalysisResult where
  executive_analysis : ExecutiveAnalysis := {}
  technical_deep_dive : TechnicalDeepDive := {}
  tokenomics : TokenomicsBreakdown := {}
  risk_analysis : RiskAnalysis := {}
  competitive_landscape : CompetitiveLandscape := {}
  technology_alternatives : TechnologyAlternatives := {}
  roadmap : RoadmapAnalysis := {}
  team_partnerships : TeamPartnerships := {}
  use_cases_adoption : UseCasesAdoption := {}
  financial_analysis : FinancialAnalysis := {}
  visualization_data : VisualizationData := {}
  overall_assessment : OverallAssessment := {}
deriving Repr

/-- A section field of `AnalysisResult`: missing key takes the
default-factory value, a present value must validate as the model. -/
def jSectionField (parse : JValue → PyM α) (dflt : α) (m : JObj) (k : String) : PyM α :=
  match jget? m k with
  | none => .ok dflt
  | some v => parse v

/-- `AnalysisResult(**analysis_dict)`. -/
def AnalysisResult.fromJson : JValue → PyM AnalysisResult
  | .obj m => do
    let executive_analysis ← jSectionField ExecutiveAnalysis.fromJson {} m "executive_analysis"
    let technical_deep_dive ← jSectionField TechnicalDeepDive.fromJson {} m "technical_deep_dive"
    let tokenomics ← jSectionField TokenomicsBreakdown.fromJson {} m "tokenomics"
    let risk_analysis ← jSectionField RiskAnalysis.fromJson {} m "risk_analysis"
    let competitive_landscape ← jSectionField CompetitiveLandscape.fromJson {} m "competitive_landscape"
    let technology_alternatives ← jSectionField TechnologyAlternatives.fromJson {} m "technology_alternatives"
    let roadmap ← jSectionField RoadmapAnalysis.fromJson {} m "roadmap"
    let team_partnerships ← jSectionField TeamPartnerships.fromJson {} m "team_partnerships"
    let use_cases_adoption ← jSectionField UseCasesAdoption.fromJson {} m "use_cases_adoption"
    let financial_analysis ← jSectionField FinancialAnalysis.fromJson {} m "financial_analysis"
    let visualization_data ← jSectionField VisualizationData.fromJson {} m "visualization_data"
    let overall_assessment ← jSectionField OverallAssessment.fromJson {} m "overall_assessment"
    pure { executive_analysis, technical_deep_dive, tokenomics, risk_analysis,
           competitive_landscape, technology_alternatives, roadmap, team_partnerships,
           use_cases_adoption, financial_analysis, visualization_data, overall_assessment }
  | _ => .error "TypeError: argument after ** must be a mapping"

/-! ## `_get_minimal_analysis_structure` (ernie_analyzer.py, lines 707-821) -/

def minimalAnalysisStructure : JValue :=
  .obj
    [("executive_analysis", .obj
       [("project_name", .str "Analysis Failed"),
        ("tagline", .str "Unable to parse AI response"),
        ("core_value_proposition", .str "JSON parsing error occurred"),
        ("target_problem", .str "Not available due to parsing error"),
        ("solution_approach", .str "Not available due to parsing error"),
        ("market_positioning", .str "Not available due to parsing error"),
        ("competitive_moat", .str "Not available due to parsing error")]),
     ("technical_deep_dive", .obj
       [("architecture_overview", .str "Not available due to parsing error"),
        ("design_patterns", .arr []),
        ("consensus_mechanism", .str "Unknown"),
        ("consensus_details", .str "Not available due to parsing error"),
        ("smart_contract_functionality", .str "Not available due to parsing error"),
        ("smart_contract_limitations", .str "Not available due to parsing error"),
        ("scalability_solutions", .arr []),
        ("security_measures", .arr []),
        ("audit_status", .str "Not available due to parsing error"),
        ("interoperability", .str "Not available due to parsing error"),
        ("technical_innovation_score", .int 5),
        ("innovation_justification", .str "Unable to assess due to parsing error")]),
     ("tokenomics", .obj
       [("token_name", .str "Unknown"),
        ("token_symbol", .str "UNK"),
        ("total_supply", .str "Unknown"),
        ("utility", .arr []),
        ("distribution", .arr []),
        ("inflation_mechanism", .str "Not available due to parsing error"),
        ("deflation_mechanism", .str "Not available due to parsing error"),
        ("economic_sustainability", .str "Not available due to parsing error"),
        ("flow_nodes", .arr []),
        ("flow_connections", .arr [])]),
     ("risk_analysis", .obj
       [("technical_risks", .arr
          [.obj [("risk", .str "Analysis Incomplete"),
                 ("description", .str "Unable to complete risk analysis due to JSON parsing error"),
                 ("severity", .str "High"),
                 ("probability", .str "High")]]),
        ("market_risks", .arr []),
        ("team_execution_risks", .arr []),
        ("overall_risk_level", .str "High")]),
     ("competitive_landscape", .obj
       [("direct_competitors", .arr []),
        ("feature_comparisons", .arr []),
        ("technology_differentiation", .str "Not available due to parsing error"),
        ("alternative_approaches", .arr [])]),
     ("technology_alternatives", .obj
       [("current_tech_stack", .arr []),
        ("why_chosen", .str "Not available due to parsing error"),
        ("alternatives", .arr []),
        ("tradeoffs", .str "Not available due to parsing error"),
        ("emerging_disruptions", .arr []),
        ("is_optimal", .bool false),
        ("optimization_reasoning", .str "Unable to assess due to parsing error")]),
     ("roadmap", .obj
       [("past_achievements", .arr []),
        ("current_phase", .str "Unknown"),
        ("future_milestones", .arr []),
        ("critical_path", .arr []),
        ("roadmap_risk", .str "High")]),
     ("team_partnerships", .obj
       [("team_members", .arr []),
        ("advisors", .arr []),
        ("partnerships", .arr []),
        ("community_size", .str "Unknown"),
        ("community_engagement", .str "Unknown")]),
     ("use_cases_adoption", .obj
       [("primary_use_cases", .arr []),
        ("target_segments", .arr []),
        ("adoption_barriers", .arr [.str "Analysis incomplete due to parsing error"]),
        ("network_effects", .str "Not available due to parsing error"),
        ("traction_evidence", .arr [])]),
     ("financial_analysis", .obj
       [("funding_raised", .str "Unknown"),
        ("funding_allocation", .obj []),
        ("revenue_model", .str "Not available due to parsing error"),
        ("token_value_drivers", .arr []),
        ("bull_case", .str "Not available due to parsing error"),
        ("bear_case", .str "Not available due to parsing error")]),
     ("visualization_data", .obj
       [("tech_stack_nodes", .arr []),
        ("tech_stack_connections", .arr []),
        ("risk_radar", .arr
          [.obj [("dimension", .str "Analysis Risk"), ("score", .int 10)]]),
        ("competitive_matrix_x_axis", .str "Unknown"),
        ("competitive_matrix_y_axis", .str "Unknown"),
        ("competitive_plots", .arr [])]),
     ("overall_assessment", .obj
       [("innovation_score", .int 1),
        ("technical_viability", .int 1),
        ("team_capability", .int 1),
        ("market_opportunity", .int 1),
        ("risk_adjusted_rating", .int 1),
        ("investment_recommendation", .str "Avoid"),
        ("recommendation_justification", .str "Analysis could not be completed due to JSON parsing error. Please try again.")])]

/-! ## `analyze_whitepaper` (ernie_analyzer.py, lines 290-425)

One external model call per attempt: either a raw text response or a
raised exception (network error, timeout, ...), supplied as a list
indexed by attempt number.  The pipeline applied to a successful
response is exactly the source sequence: sanitize, `json.loads`,
`_fix_common_json_issues`, `_aggressive_json_repair` (applied to the
output of the previous stage), then on the final attempt the minimal
structure; the parsed dict then flows through `_ensure_defaults`,
`_validate_analysis_completeness` and `AnalysisResult(**dict)`.  Any
exception from these (and from the model call) is caught by the generic
handler: retry while attempts remain, else raise with the
"Failed to analyze whitepaper after N attempts" message. -/

inductive ModelCall where
  | ok (raw : String)
  | fail (msg : String)

/-- Normalize a parsed dict and build the result
(`_ensure_defaults` / `_validate_analysis_completeness` /
`AnalysisResult(**...)`). -/
def buildResult (v : JValue) : PyM AnalysisResult := do
  let d ← normalizeParsed v
  AnalysisResult.fromJson d

/-- The outcome of one loop iteration: a returned value, a raised
exception on the last attempt, or `continue`. -/
inductive AttemptOut where
  | done (r : AnalysisResult)
  | raised (msg : String)
  | retry

/-- The generic exception handler of the attempt loop: `continue`
while attempts remain, else raise with the final message. -/
def raiseOrRetry (last : Bool) (total : Nat) (msg : String) : AttemptOut :=
  if last then
    .raised ("Failed to analyze whitepaper after " ++ toString total ++ " attempts: " ++ msg)
  else .retry

/-- The parse-and-repair cascade applied to a raw response: sanitize,
`json.loads`, `_fix_common_json_issues`, then `_aggressive_json_repair`
applied to the already-fixed text, each followed by a parse attempt. -/
def attemptParse (raw : String) : Option JValue :=
  let text := sanitizeText raw
  match jsonParse text with
  | some v => some v
  | none =>
    let text2 := fixCommonJsonIssuesText text
    match jsonParse text2 with
    | some v => some v
    | none => jsonParse (aggressiveJsonRepairText text2)

/-- One attempt of the `for attempt in range(max_retries + 1)` body.
`last` is `attempt == max_retries`; `total` is `max_retries + 1`
(used in the raised message). -/
def runAttempt (call : ModelCall) (last : Bool) (total : Nat) : AttemptOut :=
  match call with
  | .fail msg => raiseOrRetry last total msg
  | .ok raw =>
    match attemptParse raw with
    | some v =>
      match buildResult v with
      | .ok r => .done r
      | .error msg => raiseOrRetry last total msg
    | none =>
      if last then
        -- final attempt: fall back to the minimal structure
        match buildResult minimalAnalysisStructure with
        | .ok r => .done r
        | .error msg => raiseOrRetry last total msg
      else .retry

/-- The retry loop (`for attempt in range(max_retries + 1)`), with the
remaining iteration count as structural fuel (`remaining` equals
`max_retries + 1 - attempt` throughout).  Returns the result (or the
raised message) together with the number of attempts executed; the
zero-fuel case is the fall-through `raise` after the loop, unreachable
in Python. -/
def analyzeLoop (calls : List ModelCall) (maxRetries : Nat) :
    Nat → Nat → (Except String AnalysisResult × Nat)
  | 0, attempt => (.error "Failed to analyze whitepaper: retry loop exhausted", attempt)
  | remaining + 1, attempt =>
    match runAttempt (calls.getD attempt (.fail "")) (attempt = maxRetries) (maxRetries + 1) with
    | .done r => (.ok r, attempt + 1)
    | .raised msg => (.error msg, attempt + 1)
    | .retry => analyzeLoop calls maxRetries remaining (attempt + 1)

/-- `analyze_whitepaper(text, max_retries)`; the text itself only
parameterizes the prompt, which the embedding does not inspect. -/
def analyzeWhitepaper (calls : List ModelCall) (maxRetries : Nat := 2) :
    Except String AnalysisResult × Nat :=
  analyzeLoop calls maxRetries (maxRetries + 1) 0

/-! ## The task lifecycle (main.py)

`process_whitepaper` contains no `await` expression: the whole body
runs atomically on the asyncio event loop, so the only task records
other handlers (status/result queries) can observe are the record
created at upload (`pending`) and the record left at the end of the
background task (`completed`/`failed`).  The model therefore exposes
exactly those snapshots. -/

inductive TaskStatus where
  | pending
  | processing
  | completed
  | failed
deriving Repr, DecidableEq

structure TaskRec where
  status : TaskStatus
  progress : Nat
  result : Option AnalysisResult
  error : Option String

/-- The record created by `upload_whitepaper` (lines 150-157). -/
def initialTaskRec : TaskRec :=
  { status := .pending, progress := 0, result := none, error := none }

/-- What can go wrong before the analyzer runs, with the exact message
recorded by the code (`validate_pdf` in pdf_processor.py, the
extraction raise, and the analyzer-initialization check). -/
inductive PreError where
  | fileMissing
  | notPdf
  | tooBig (detail : String)
  | corrupted (detail : String)
  | extractionFailed
  | analyzerMissing

def PreError.msg : PreError → String
  | .fileMissing => "File does not exist"
  | .notPdf => "File must be a PDF"
  | .tooBig detail => "File size (" ++ detail ++ ")"
  | .corrupted detail => "Invalid or corrupted PDF file: " ++ detail
  | .extractionFailed => "Failed to extract meaningful text from PDF"
  | .analyzerMissing => "ERNIE Analyzer not initialized. Check NOVITA_API_KEY."

/-- Inputs determining one run of `process_whitepaper`: an early
failure, or the model-call outcomes consumed by `analyze_whitepaper`. -/
structure ProcParams where
  pre : Option PreError
  calls : List ModelCall

/-- The record left by `process_whitepaper` (lines 178-237): success
sets `completed`/100/result; any exception sets `failed`/0 and records
`str(e)`. -/
def processFinal (p : ProcParams) : TaskRec :=
  match p.pre with
  | some e => { status := .failed, progress := 0, result := none, error := some e.msg }
  | none =>
    match (analyzeWhitepaper p.calls).1 with
    | .ok r => { status := .completed, progress := 100, result := some r, error := none }
    | .error msg => { status := .failed, progress := 0, result := none, error := some msg }

/-- The task records observable for a task driven by
`process_whitepaper` (see the note above on suspension points). -/
def observableRecs (p : ProcParams) : List TaskRec :=
  [initialTaskRec, processFinal p]

/-! ## Helper definitions for the statements -/

/-- Look a section up in a normalized document. -/
def getSection (v : JValue) (k : String) : Option JValue :=
  match v with
  | .obj d => jget? d k
  | _ => none

/-- Whether a section key is present in the (object) document. -/
def sectionPresent (v : JValue) (k : String) : Bool :=
  match v with
  | .obj d => jhas d k
  | _ => false

def isStrJ : JValue → Bool
  | .str _ => true
  | _ => false

/-- The `technology_alternatives.alternatives` list of a document. -/
def altPath (v : JValue) : Option JValue :=
  (getSection v "technology_alternatives").bind (fun s => getSection s "alternatives")

/-- The C5 probe value: `{"technology_alternatives": {"alternatives":
[{"alternative": 5}]}}`. -/
def altProbe : JValue :=
  .obj [("technology_alternatives", .obj
    [("alternatives", .arr [.obj [("alternative", .int 5)]])])]

/-- Three attempts whose responses never become parseable JSON: the
text survives every repair stage unchanged and unparseable. -/
def parseFailCalls : List ModelCall :=
  [.ok "not json at all", .ok "not json at all", .ok "not json at all"]

/-- Model call raises twice, succeeds with a minimal valid response on
the third attempt. -/
def failFailOkCalls : List ModelCall :=
  [.fail "connection error", .fail "connection error", .ok "\x7b\x7d"]

/-- Model call raises on every attempt. -/
def allFailCalls : List ModelCall :=
  [.fail "connection error", .fail "connection error", .fail "connection error"]

def TaskStatus.terminal : TaskStatus → Bool
  | .completed => true
  | .failed => true
  | _ => false

/-- "error non-empty": present and not the empty string. -/
def errNonempty (r : TaskRec) : Prop := ∃ m, r.error = some m ∧ m ≠ ""

/-! ## C2 -/

/-- C2, counterexample: on the truncated text `{"a": [1, 2, 3` the
syntax-repair stage does NOT return `{"a": [1, 2, 3]}`. -/
theorem c2_counterexample :
    fixCommonJsonIssuesText "\x7b\"a\": [1, 2, 3" ≠ "\x7b\"a\": [1, 2, 3]\x7d" := by
  decide

/-- C2, amended: on `{"a": [1, 2, 3` the syntax-repair stage returns
`{"a": [1, 2, 3}]` — the missing closing brace is appended before the
missing closing bracket, so the output has balanced counts but improper
nesting and is not valid JSON. -/
theorem c2_syntax_repair_output :
    fixCommonJsonIssuesText "\x7b\"a\": [1, 2, 3" = "\x7b\"a\": [1, 2, 3\x7d]" ∧
    jsonParse (fixCommonJsonIssuesText "\x7b\"a\": [1, 2, 3") = none := by
  exact ⟨rfl, rfl⟩

/-! ## C3 -/

/-- C3, counterexample: in the fallback document returned when JSON
parsing fails on every attempt, the score field
`technical_deep_dive.technical_innovation_score` equals 5, not the
minimum valid value 1 (and the risk-radar score is 10) — so not every
score field is at its minimum. -/
theorem c3_counterexample :
    ((analyzeWhitepaper parseFailCalls 2).1).toOption.map
        (fun r => r.technical_deep_dive.technical_innovation_score) = some 5 ∧
    ((analyzeWhitepaper parseFailCalls 2).1).toOption.map
        (fun r => (r.visualization_data.risk_radar.map RadarDataPoint.score)) = some [10] ∧
    (5 : Int) ≠ 1 := by
  refine ⟨rfl, rfl, by decide⟩

/-- C3, amended: when JSON parsing fails after all repair stages on
every attempt, `analyze_whitepaper` returns normally with the fallback
document and the task ends `completed`; in that document the five
overall-assessment score fields equal the minimum valid value 1 and the
investment recommendation is "Avoid" (but
`technical_innovation_score` is 5 and the risk-radar score is 10). -/
theorem c3_fallback_scores :
    (processFinal { pre := none, calls := parseFailCalls }).status = .completed ∧
    ((analyzeWhitepaper parseFailCalls 2).1).toOption.map
        (fun r => [r.overall_assessment.innovation_score,
                   r.overall_assessment.technical_viability,
                   r.overall_assessment.team_capability,
                   r.overall_assessment.market_opportunity,
                   r.overall_assessment.risk_adjusted_rating]) = some [1, 1, 1, 1, 1] ∧
    ((analyzeWhitepaper parseFailCalls 2).1).toOption.map
        (fun r => r.overall_assessment.investment_recommendation) = some "Avoid" := by
  exact ⟨rfl, rfl, rfl⟩

/-! ## C10 -/

/-- C10: on the complete, valid JSON object `{"a": "}"}` (a closing
brace inside a string literal), the sanitizer's brace-depth truncation
cuts before the object's true end: the output is a proper prefix of the
input, differs from it, and is not parseable JSON. -/
theorem c10_truncation_prefix :
    jsonParse "\x7b\"a\": \"\x7d\"\x7d" = some (.obj [("a", .str "\x7d")]) ∧
    sanitizeText "\x7b\"a\": \"\x7d\"\x7d" = "\x7b\"a\": \"\x7d" ∧
    (sanitizeText "\x7b\"a\": \"\x7d\"\x7d").toList =
      ("\x7b\"a\": \"\x7d\"\x7d" : String).toList.take 8 ∧
    sanitizeText "\x7b\"a\": \"\x7d\"\x7d" ≠ "\x7b\"a\": \"\x7d\"\x7d" ∧
    jsonParse (sanitizeText "\x7b\"a\": \"\x7d\"\x7d") = none := by
  refine ⟨rfl, rfl, rfl, by decide, rfl⟩

/-! ## C1, counterexample side -/

/-- C1, counterexample: on the parsed value `{}` normalization
succeeds, yet the `executive_analysis` section stays `{}` at the
dictionary level, and in the externally visible document (after
`AnalysisResult(**...)`) its `project_name` is the EMPTY string — so
not every declared field carries a non-empty value. -/
theorem c1_counterexample :
    (normalizeParsed (.obj [])).toOption.bind
        (fun v => getSection v "executive_analysis") = some (.obj []) ∧
    (buildResult (.obj [])).toOption.map
        (fun r => r.executive_analysis.project_name) = some "" := by
  exact ⟨rfl, rfl⟩

/-! ## C5, counterexample side -/

/-- C5, counterexample: normalization is not idempotent.  On
`{"technology_alternatives": {"alternatives": [{"alternative": 5}]}}`
one application leaves `alternatives = [5]`, but a second application
drops the non-string entry, yielding `[]`. -/
theorem c5_counterexample :
    (normalizeParsed altProbe).bind normalizeParsed ≠ normalizeParsed altProbe := by
  intro h
  have ha : ((normalizeParsed altProbe).bind normalizeParsed).toOption.bind altPath
      = some (.arr []) := rfl
  rw [h] at ha
  have hb : (normalizeParsed altProbe).toOption.bind altPath = some (.arr [.int 5]) := rfl
  rw [hb] at ha
  exact absurd (Option.some.inj ha) (by intro hc; cases hc)

/-! ## C6, counterexample side -/

/-- C6, counterexample: on input `x: "}"` the structural-repair output
is `"x": "}"`, whose raw `{`/`}` counts are 0 and 1 (not pairwise
equal — the closing brace sits inside a string literal) and which is
not a parseable JSON object. -/
theorem c6_counterexample :
    aggressiveJsonRepairText "x: \"\x7d\"" = "\"x\": \"\x7d\"" ∧
    countc '\x7b' (aggressiveJsonRepairText "x: \"\x7d\"").toList = 0 ∧
    countc '\x7d' (aggressiveJsonRepairText "x: \"\x7d\"").toList = 1 ∧
    jsonParse (aggressiveJsonRepairText "x: \"\x7d\"") = none := by
  exact ⟨rfl, rfl, rfl, rfl⟩

/-! ## C7, counterexample side -/

/-- C7, counterexample: the line `"a` has an odd count of unescaped
quote characters but no colon, and the syntax-repair stage leaves it
unchanged — the dangling string is not closed, and the output line
keeps an odd quote count. -/
theorem c7_counterexample :
    fixCommonJsonIssuesText "\"a" = "\"a" ∧
    codeQuoteCount ("\"a" : String).toList % 2 = 1 := by
  exact ⟨rfl, rfl⟩

/-! ## Generic inversion lemmas for the `Except` embedding -/

theorem pym_bind_ok {α β : Type} {x : PyM α} {f : α → PyM β} {b : β}
    (h : (x >>= f) = .ok b) : ∃ a, x = .ok a ∧ f a = .ok b := by
  cases x with
  | error e => simp [Bind.bind, Except.bind] at h
  | ok a => exact ⟨a, rfl, by simpa [Bind.bind, Except.bind] using h⟩

theorem pym_map_ok {α β : Type} {x : PyM α} {g : α → β} {b : β}
    (h : Except.map g x = .ok b) : ∃ a, x = .ok a ∧ g a = b := by
  cases x with
  | error e => simp [Except.map] at h
  | ok a => exact ⟨a, rfl, by simpa [Except.map] using h⟩

/-! ## Association-list lemmas -/

theorem jget?_cons (a : String) (b : JValue) (t : JObj) (k₀ : String) :
    jget? ((a, b) :: t) k₀ = if a = k₀ then some b else jget? t k₀ := by
  by_cases h : a = k₀ <;> simp [jget?, List.find?, h]

theorem jget?_jset (d : JObj) (k : String) (v : JValue) (k₀ : String) :
    jget? (jset d k v) k₀ = if k₀ = k then some v else jget? d k₀ := by
  induction d with
  | nil =>
    by_cases h : k₀ = k
    · subst h; simp [jset, jget?_cons]
    · have h' : ¬k = k₀ := fun hh => h hh.symm
      simp [jset, jget?_cons, h, h', jget?]
  | cons p t ih =>
    obtain ⟨a, b⟩ := p
    by_cases hak : a = k
    · subst hak
      simp only [jset, if_pos rfl]
      by_cases h : k₀ = a
      · subst h; simp [jget?_cons]
      · have h' : ¬a = k₀ := fun hh => h hh.symm
        simp [jget?_cons, h, h']
    · simp only [jset, if_neg hak]
      by_cases h : a = k₀
      · subst h
        have hk : ¬a = k := hak
        have hk' : ¬(a = k) := hak
        simp [jget?_cons, fun hh : a = k => hak hh]
      · rw [show jget? ((a, b) :: jset t k v) k₀ = jget? (jset t k v) k₀ by
            simp [jget?_cons, h],
          ih]
        by_cases hk : k₀ = k
        · simp [hk]
        · simp [hk, jget?_cons, h]

theorem jhas_jset_self (d : JObj) (k : String) (v : JValue) :
    jhas (jset d k v) k = true := by
  simp [jhas, jget?_jset]

theorem jhas_jset_mono {d : JObj} {k₀ : String} (k : String) (v : JValue)
    (h : jhas d k₀ = true) : jhas (jset d k v) k₀ = true := by
  by_cases hk : k₀ = k
  · subst hk; exact jhas_jset_self d k₀ v
  · simpa [jhas, jget?_jset, hk] using h

/-! ## C4 -/

theorem analyzeLoop_attempts (rem : Nat) :
    ∀ (att : Nat) (calls : List ModelCall) (mr : Nat),
      (analyzeLoop calls mr rem att).2 ≤ att + rem := by
  induction rem with
  | zero => intro att calls mr; simp [analyzeLoop]
  | succ n ih =>
    intro att calls mr
    simp only [analyzeLoop]
    split
    · simp
    · simp
    · have := ih (att + 1) calls mr
      omega

/-- C4: with `max_retries = 2` the analyzer makes at most 3 attempts;
two model-call failures followed by a success yield the successful
result in exactly 3 attempts and the task ends `completed`; a failure
on every attempt raises (with the recorded message) and the task ends
`failed` with that error stored. -/
theorem c4_retry_behavior :
    (∀ calls : List ModelCall, (analyzeWhitepaper calls 2).2 ≤ 3) ∧
    ((analyzeWhitepaper failFailOkCalls 2).1).toOption.isSome = true ∧
    (analyzeWhitepaper failFailOkCalls 2).2 = 3 ∧
    (processFinal { pre := none, calls := failFailOkCalls }).status = .completed ∧
    (analyzeWhitepaper allFailCalls 2).1 =
      .error "Failed to analyze whitepaper after 3 attempts: connection error" ∧
    (processFinal { pre := none, calls := allFailCalls }).status = .failed ∧
    (processFinal { pre := none, calls := allFailCalls }).error =
      some "Failed to analyze whitepaper after 3 attempts: connection error" := by
  refine ⟨?_, rfl, rfl, rfl, rfl, rfl, rfl⟩
  intro calls
  simpa [analyzeWhitepaper] using analyzeLoop_attempts 3 0 calls 2

/-! ## C8 -/

theorem preError_msg_ne (e : PreError) : e.msg ≠ "" := by
  cases e with
  | tooBig detail =>
    intro h
    have hl := congrArg String.length h
    simp [PreError.msg, String.length_append] at hl
    exact absurd hl.1.1 (by decide)
  | corrupted detail =>
    intro h
    have hl := congrArg String.length h
    simp [PreError.msg, String.length_append] at hl
    exact absurd hl.1 (by decide)
  | fileMissing => decide
  | notPdf => decide
  | extractionFailed => decide
  | analyzerMissing => decide

theorem raiseOrRetry_raised {last : Bool} {total : Nat} {msg0 m : String}
    (h : raiseOrRetry last total msg0 = .raised m) :
    m = "Failed to analyze whitepaper after " ++ toString total ++ " attempts: " ++ msg0 := by
  unfold raiseOrRetry at h
  split at h
  · exact (AttemptOut.raised.inj h).symm
  · cases h

theorem runAttempt_raised {c : ModelCall} {last : Bool} {total : Nat} {m : String}
    (h : runAttempt c last total = .raised m) :
    ∃ t, m = "Failed to analyze whitepaper after " ++ toString total ++ " attempts: " ++ t := by
  cases c with
  | fail msg => exact ⟨msg, raiseOrRetry_raised h⟩
  | ok raw =>
    rw [show runAttempt (.ok raw) last total =
        (match attemptParse raw with
         | some v =>
           match buildResult v with
           | .ok r => .done r
           | .error msg => raiseOrRetry last total msg
         | none =>
           if last then
             match buildResult minimalAnalysisStructure with
             | .ok r => .done r
             | .error msg => raiseOrRetry last total msg
           else .retry) from rfl] at h
    generalize attemptParse raw = pr at h
    cases pr with
    | some v =>
      dsimp only at h
      generalize buildResult v = br at h
      cases br with
      | ok r => cases h
      | error msg => exact ⟨msg, raiseOrRetry_raised h⟩
    | none =>
      dsimp only at h
      generalize buildResult minimalAnalysisStructure = fb at h
      cases hl : last with
      | true =>
        subst hl
        cases fb with
        | ok r => cases h
        | error msg => exact ⟨msg, raiseOrRetry_raised h⟩
      | false => subst hl; cases h

theorem analyzeLoop_error_ne (rem : Nat) :
    ∀ (att : Nat) (calls : List ModelCall) (mr : Nat) (m : String),
      (analyzeLoop calls mr rem att).1 = .error m → m ≠ "" := by
  induction rem with
  | zero =>
    intro att calls mr m h
    simp [analyzeLoop] at h
    subst h; decide
  | succ n ih =>
    intro att calls mr m h
    simp only [analyzeLoop] at h
    split at h
    · cases h
    · rename_i msg hr
      obtain ⟨t, ht⟩ := runAttempt_raised hr
      have hm : m = msg := by cases h; rfl
      subst hm; subst ht
      intro he
      have hl := congrArg String.length he
      simp [String.length_append] at hl
      exact absurd hl.1.1.1 (by decide)
    · exact ih (att + 1) calls mr m h

def taskInvariant (r : TaskRec) : Prop :=
  (r.status.terminal = true →
    (r.result.isSome = true ∧ r.error = none) ∨ (errNonempty r ∧ r.result = none)) ∧
  (r.status.terminal = false → r.result = none ∧ r.error = none)

/-- C8: for every task record observable through `process_whitepaper`,
exactly one of `result` / `error` is non-empty in a terminal state, and
both are empty before that. -/
theorem c8_task_invariant (p : ProcParams) (r : TaskRec)
    (hr : r ∈ observableRecs p) : taskInvariant r := by
  simp only [observableRecs, List.mem_cons, List.mem_singleton, List.not_mem_nil, or_false]
    at hr
  rcases hr with h | h
  · subst h
    exact ⟨fun ht => by simp [initialTaskRec, TaskStatus.terminal] at ht,
           fun _ => ⟨rfl, rfl⟩⟩
  · subst h
    unfold processFinal
    cases hp : p.pre with
    | some e =>
      refine ⟨fun _ => Or.inr ⟨⟨e.msg, rfl, preError_msg_ne e⟩, rfl⟩, fun ht => ?_⟩
      simp [TaskStatus.terminal] at ht
    | none =>
      cases ha : (analyzeWhitepaper p.calls).1 with
      | ok res =>
        refine ⟨fun _ => Or.inl ⟨rfl, rfl⟩, fun ht => ?_⟩
        simp [TaskStatus.terminal] at ht
      | error msg =>
        refine ⟨fun _ => Or.inr ⟨⟨msg, rfl, ?_⟩, rfl⟩, fun ht => ?_⟩
        · exact analyzeLoop_error_ne 3 0 p.calls 2 msg ha
        · simp [TaskStatus.terminal] at ht

/-- C8, witness at a concrete run: three parse failures, the fallback
completion record. -/
theorem c8_task_invariant_witness :
    taskInvariant (processFinal { pre := none, calls := parseFailCalls }) :=
  c8_task_invariant { pre := none, calls := parseFailCalls } _ (by simp [observableRecs])

/-! ## C5, amended side -/

theorem cleanAlt_id_of_strings : ∀ (m : List JValue), m.all isStrJ = true → cleanAltList m = m := by
  intro m
  induction m with
  | nil => intro _; rfl
  | cons x t ih =>
    intro h
    rw [List.all_cons, Bool.and_eq_true] at h
    cases x with
    | str s =>
      show cleanAltList (.str s :: t) = .str s :: t
      rw [show cleanAltList (.str s :: t) = .str s :: cleanAltList t from rfl, ih h.2]
    | null => simp [isStrJ] at h
    | bool b => simp [isStrJ] at h
    | int n => simp [isStrJ] at h
    | arr xs => simp [isStrJ] at h
    | obj fs => simp [isStrJ] at h

/-- C5, amended: the technology-alternatives cleaning pass (the source
of the non-idempotence) is idempotent whenever its first pass produces
only strings; extracted non-string values (see `c5_counterexample`)
are dropped by a second pass. -/
theorem c5_clean_idempotent_on_strings (items : List JValue)
    (h : (cleanAltList items).all isStrJ = true) :
    cleanAltList (cleanAltList items) = cleanAltList items :=
  cleanAlt_id_of_strings _ h

theorem c5_clean_idempotent_witness :
    cleanAltList (cleanAltList [JValue.str "Rust", JValue.int 3]) =
      cleanAltList [JValue.str "Rust", JValue.int 3] :=
  c5_clean_idempotent_on_strings [JValue.str "Rust", JValue.int 3] (by decide)

/-! ## C7, amended side -/

theorem rstripBy_spec (p : Char → Bool) (l : List Char) :
    ∃ s, l = rstripBy p l ++ s ∧ ∀ x ∈ s, p x = true := by
  induction l with
  | nil => exact ⟨[], rfl, by simp⟩
  | cons c t ih =>
    obtain ⟨s, hs, hall⟩ := ih
    have hdef : rstripBy p (c :: t) =
        (match rstripBy p t with
         | [] => if p c then [] else [c]
         | r => c :: r) := rfl
    cases hr : rstripBy p t with
    | nil =>
      rw [hr] at hs
      simp only [List.nil_append] at hs
      rw [hdef, hr]
      by_cases hc : p c = true
      · refine ⟨c :: t, by simp [hc], ?_⟩
        intro x hx
        rcases List.mem_cons.mp hx with h1 | h2
        · subst h1; exact hc
        · exact hall x (hs ▸ h2)
      · refine ⟨s, ?_, hall⟩
        simp only [if_neg hc]
        rw [hs]
        rfl
    | cons y ys =>
      refine ⟨s, ?_, hall⟩
      rw [hr] at hs
      rw [hdef, hr]
      dsimp only
      rw [hs]
      rfl

theorem countc_rstripBy {p : Char → Bool} {q : Char} (hq : p q = false) (l : List Char) :
    countc q (rstripBy p l) = countc q l := by
  obtain ⟨s, hs, hall⟩ := rstripBy_spec p l
  have hq0 : List.count q s = 0 := by
    rw [List.count_eq_zero]
    intro hm
    have := hall q hm
    rw [hq] at this
    cases this
  conv_rhs => rw [hs]
  simp [countc, List.count_append, hq0]

theorem getLast?_decomp : ∀ (l : List Char) (d : Char), l.getLast? = some d →
    l = l.dropLast ++ [d] := by
  intro l
  induction l with
  | nil => intro d h; cases h
  | cons c t ih =>
    intro d h
    cases t with
    | nil =>
      simp [List.getLast?] at h
      subst h; rfl
    | cons y ys =>
      have h' : (y :: ys).getLast? = some d := by
        rw [List.getLast?_cons_cons] at h; exact h
      have hd := ih d h'
      calc c :: y :: ys = c :: ((y :: ys).dropLast ++ [d]) := by rw [← hd]
        _ = (c :: y :: ys).dropLast ++ [d] := by simp

/-- C7, amended: a line with an odd count of unescaped quote characters
that ALSO contains a colon gets exactly one quote added, closing the
dangling string at end of line or before a trailing comma or closing
delimiter; a line failing either condition (in particular an odd line
without a colon) is left unchanged, so an output line can retain an odd
quote count. -/
theorem c7_quote_close (line : List Char) :
    (codeQuoteCount line % 2 ≠ 0 ∧ ':' ∈ line →
      countc '"' (fixUnterminatedLine line) = countc '"' line + 1) ∧
    (¬(codeQuoteCount line % 2 ≠ 0 ∧ ':' ∈ line) → fixUnterminatedLine line = line) := by
  constructor
  · intro h
    unfold fixUnterminatedLine
    rw [if_pos h]
    dsimp only
    have hr : countc '"' (rstrip line) = countc '"' line := by
      unfold rstrip
      exact countc_rstripBy (by decide) line
    cases hl : (rstrip line).getLast? with
    | none =>
      dsimp only
      simp only [countc, List.count_append] at *
      rw [show List.count '"' ['"'] = 1 from by decide]
      omega
    | some d =>
      dsimp only
      have hdec := getLast?_decomp _ _ hl
      have hsplit : countc '"' (rstrip line) =
          countc '"' ((rstrip line).dropLast) + countc '"' [d] := by
        conv_lhs => rw [hdec]
        simp [countc, List.count_append]
      by_cases hd1 : d = ','
      · subst hd1
        rw [if_pos rfl]
        rw [show countc '"' [','] = 0 from by decide] at hsplit
        simp only [countc, List.count_append] at *
        rw [show List.count '"' ['"', ','] = 1 from by decide]
        omega
      · rw [if_neg hd1]
        by_cases hd2 : d = '\x7d' ∨ d = ']'
        · rw [if_pos hd2]
          have hd0 : countc '"' [d] = 0 := by
            rcases hd2 with h2 | h2 <;> subst h2 <;> decide
          rw [hd0] at hsplit
          simp only [countc, List.count_append] at *
          have : List.count '"' ['"', d] = 1 := by
            rw [List.count_cons, List.count_singleton]
            rcases hd2 with h2 | h2 <;> subst h2 <;> decide
          omega
        · rw [if_neg hd2]
          simp only [countc, List.count_append] at *
          rw [show List.count '"' ['"'] = 1 from by decide]
          omega
  · intro h
    unfold fixUnterminatedLine
    rw [if_neg h]

theorem c7_quote_close_witness :
    countc '"' (fixUnterminatedLine ("\"a\": \"b" : String).toList) =
      countc '"' (("\"a\": \"b" : String).toList) + 1 :=
  (c7_quote_close ("\"a\": \"b" : String).toList).1 ⟨by decide, by decide⟩

/-! ## C1, amended side -/

theorem vFillStep_self (d : JObj) (k : String) : jhas (vFillStep d k) k = true := by
  simp only [vFillStep]
  cases hg : jget? d k with
  | none => exact jhas_jset_self d k (.obj [])
  | some v =>
    cases v with
    | null => exact jhas_jset_self d k (.obj [])
    | bool b => simp [jhas, hg]
    | int n => simp [jhas, hg]
    | str s => simp [jhas, hg]
    | arr xs => simp [jhas, hg]
    | obj fs => simp [jhas, hg]

theorem vFillStep_mono (d : JObj) (k k₀ : String) (h : jhas d k₀ = true) :
    jhas (vFillStep d k) k₀ = true := by
  simp only [vFillStep]
  cases jget? d k with
  | none => exact jhas_jset_mono k (.obj []) h
  | some v => cases v <;> first | exact jhas_jset_mono k _ h | exact h

theorem foldl_fill_has : ∀ (ks : List String) (d : JObj),
    (∀ k ∈ ks, jhas (ks.foldl vFillStep d) k = true) ∧
    (∀ k₀, jhas d k₀ = true → jhas (ks.foldl vFillStep d) k₀ = true) := by
  intro ks
  induction ks with
  | nil => exact fun d => ⟨by simp, fun k₀ h => by simpa using h⟩
  | cons a t ih =>
    intro d
    refine ⟨?_, ?_⟩
    · intro k hk
      rcases List.mem_cons.mp hk with h1 | h2
      · subst h1
        exact (ih (vFillStep d k)).2 k (vFillStep_self d k)
      · exact (ih (vFillStep d a)).1 k h2
    · intro k₀ h
      exact (ih (vFillStep d a)).2 k₀ (vFillStep_mono d a k₀ h)

/-- Every section-fixing block of `_validate_analysis_completeness`
writes back exactly one section key, so it preserves key presence. -/
theorem section_step_preserves {body : PyM JValue} {din : JObj} {key : String}
    {dout : JObj} (h : Except.map (jset din key) body = .ok dout) {k : String}
    (hk : jhas din k = true) : jhas dout k = true := by
  obtain ⟨x, _, hx⟩ := pym_map_ok h
  exact hx ▸ jhas_jset_mono key x hk

theorem validate_sections (d d' : JObj)
    (h : validateAnalysisCompleteness d = .ok d') :
    ∀ k ∈ requiredSections, jhas d' k = true := by
  intro k hk
  unfold validateAnalysisCompleteness at h
  obtain ⟨d1, h1, h⟩ := pym_bind_ok h
  obtain ⟨d2, h2, h⟩ := pym_bind_ok h
  obtain ⟨d3, h3, h⟩ := pym_bind_ok h
  obtain ⟨d4, h4, h⟩ := pym_bind_ok h
  obtain ⟨d5, h5, h6⟩ := pym_bind_ok h
  have hbase : jhas (vFillSections d) k = true :=
    (foldl_fill_has requiredSections d).1 k hk
  unfold vTeam at h1
  have p1 : jhas d1 k = true := section_step_preserves h1 hbase
  unfold vTok at h2
  have p2 : jhas d2 k = true := section_step_preserves h2 p1
  unfold vFin at h3
  have p3 : jhas d3 k = true := section_step_preserves h3 p2
  unfold vOverall at h4
  have p4 : jhas d4 k = true := section_step_preserves h4 p3
  unfold vTech at h5
  have p5 : jhas d5 k = true := section_step_preserves h5 p4
  unfold vRadar at h6
  exact section_step_preserves h6 p5

/-- C1, amended: for every parsed value accepted by the normalization
pipeline, every one of the twelve sections is present in the output
document; every declared field of every section then carries a value in
the externally visible `AnalysisResult` through the schema defaults,
but the value may be empty (see `c1_counterexample`). -/
theorem c1_sections_present (v out : JValue) (h : normalizeParsed v = .ok out) :
    ∀ k ∈ requiredSections, sectionPresent out k = true := by
  intro k hk
  cases v with
  | obj d =>
    unfold normalizeParsed at h
    obtain ⟨d1, h1, h⟩ := pym_bind_ok h
    obtain ⟨d2, h2, h3⟩ := pym_bind_ok h
    have hout : out = .obj d2 := by
      simp only [pure, Except.pure] at h3
      cases h3
      rfl
    subst hout
    show jhas d2 k = true
    exact validate_sections d1 d2 h2 k hk
  | null => exact Except.noConfusion h
  | bool b => exact Except.noConfusion h
  | int n => exact Except.noConfusion h
  | str s => exact Except.noConfusion h
  | arr xs => exact Except.noConfusion h

theorem c1_sections_present_witness :
    sectionPresent ((normalizeParsed (.obj [])).toOption.getD .null)
      "executive_analysis" = true :=
  c1_sections_present (.obj []) ((normalizeParsed (.obj [])).toOption.getD .null)
    rfl "executive_analysis" (by decide)

/-! ## C6, amended side -/

theorem mem_pyStrip {x : Char} {l : List Char} (h : x ∈ pyStrip l) : x ∈ l := by
  unfold pyStrip rstrip at h
  obtain ⟨s, hs, _⟩ := rstripBy_spec isPyWs (lstrip l)
  have h2 : x ∈ lstrip l := by
    rw [hs]
    exact List.mem_append_left _ h
  unfold lstrip at h2
  exact (List.dropWhile_sublist isPyWs).mem h2

theorem countc_cons_self (q : Char) (t : List Char) : countc q (q :: t) = countc q t + 1 := by
  simp [countc, List.count_cons]

theorem countc_cons_ne {c q : Char} (h : ¬c = q) (t : List Char) :
    countc q (c :: t) = countc q t := by
  simp [countc, List.count_cons, h]

theorem scanChars_no_quote : ∀ (cs : List Char) (prevBS : Bool) (b k : Int),
    (∀ c ∈ cs, c ≠ '"') → 0 ≤ b → 0 ≤ k →
    scanChars cs prevBS b k false = none ∨
    ∃ b' k', scanChars cs prevBS b k false = some (b', k', false) ∧
      0 ≤ b' ∧ 0 ≤ k' ∧
      b' = b + (countc '\x7b' cs : Int) - (countc '\x7d' cs : Int) ∧
      k' = k + (countc '[' cs : Int) - (countc ']' cs : Int) := by
  intro cs
  induction cs with
  | nil =>
    intro prevBS b k _ hb hk
    right
    exact ⟨b, k, rfl, hb, hk, by simp [countc], by simp [countc]⟩
  | cons c t ih =>
    intro prevBS b k h hb hk
    have hc : c ≠ '"' := h c (List.mem_cons_self c t)
    have ht : ∀ x ∈ t, x ≠ '"' := fun x hx => h x (List.mem_cons_of_mem c hx)
    simp only [scanChars]
    rw [if_neg (fun hh => hc hh.1)]
    simp only [if_true]
    by_cases h1 : c = '\x7b'
    · rw [if_pos h1]
      rcases ih (decide (c = '\\')) (b + 1) k ht (by omega) hk with
        hn | ⟨b', k', hs, hb', hk', e1, e2⟩
      · exact Or.inl hn
      · right
        refine ⟨b', k', hs, hb', hk', ?_, ?_⟩
        · subst h1
          rw [countc_cons_self, countc_cons_ne (by decide)]
          push_cast
          omega
        · subst h1
          rw [countc_cons_ne (by decide), countc_cons_ne (by decide)]
          omega
    · rw [if_neg h1]
      by_cases h2 : c = '\x7d'
      · rw [if_pos h2]
        by_cases hneg : b - 1 < 0
        · rw [if_pos hneg]; exact Or.inl rfl
        · rw [if_neg hneg]
          rcases ih (decide (c = '\\')) (b - 1) k ht (by omega) hk with
            hn | ⟨b', k', hs, hb', hk', e1, e2⟩
          · exact Or.inl hn
          · right
            refine ⟨b', k', hs, hb', hk', ?_, ?_⟩
            · subst h2
              rw [countc_cons_ne (by decide), countc_cons_self]
              push_cast
              omega
            · subst h2
              rw [countc_cons_ne (by decide), countc_cons_ne (by decide)]
              omega
      · rw [if_neg h2]
        by_cases h3 : c = '['
        · rw [if_pos h3]
          rcases ih (decide (c = '\\')) b (k + 1) ht hb (by omega) with
            hn | ⟨b', k', hs, hb', hk', e1, e2⟩
          · exact Or.inl hn
          · right
            refine ⟨b', k', hs, hb', hk', ?_, ?_⟩
            · subst h3
              rw [countc_cons_ne (by decide), countc_cons_ne (by decide)]
              omega
            · subst h3
              rw [countc_cons_self, countc_cons_ne (by decide)]
              push_cast
              omega
        · rw [if_neg h3]
          by_cases h4 : c = ']'
          · rw [if_pos h4]
            by_cases hneg : k - 1 < 0
            · rw [if_pos hneg]; exact Or.inl rfl
            · rw [if_neg hneg]
              rcases ih (decide (c = '\\')) b (k - 1) ht hb (by omega) with
                hn | ⟨b', k', hs, hb', hk', e1, e2⟩
              · exact Or.inl hn
              · right
                refine ⟨b', k', hs, hb', hk', ?_, ?_⟩
                · subst h4
                  rw [countc_cons_ne (by decide), countc_cons_ne (by decide)]
                  omega
                · subst h4
                  rw [countc_cons_ne (by decide), countc_cons_self]
                  push_cast
                  omega
          · rw [if_neg h4]
            rcases ih (decide (c = '\\')) b k ht hb hk with
              hn | ⟨b', k', hs, hb', hk', e1, e2⟩
            · exact Or.inl hn
            · right
              refine ⟨b', k', hs, hb', hk', ?_, ?_⟩
              · rw [countc_cons_ne h1, countc_cons_ne h2]
                omega
              · rw [countc_cons_ne h3, countc_cons_ne h4]
                omega

theorem stc_count {q : Char} (hq : q ≠ ',') : ∀ (fuel : Nat) (l : List Char),
    countc q (stcFuel fuel l) = countc q l := by
  intro fuel
  induction fuel with
  | zero => intro l; rfl
  | succ n ih =>
    intro l
    cases l with
    | nil => rfl
    | cons c t =>
      simp only [stcFuel]
      by_cases hc : c = ','
      · rw [if_pos hc]
        cases hd : t.dropWhile isPyWs with
        | nil =>
          dsimp only
          subst hc
          rw [countc_cons_ne (fun hh => hq hh.symm), countc_cons_ne (fun hh => hq hh.symm), ih]
        | cons d r =>
          dsimp only
          by_cases hdd : d = '\x7d' ∨ d = ']'
          · rw [if_pos hdd]
            have ht : t = t.takeWhile isPyWs ++ d :: r := by
              conv_lhs => rw [← List.takeWhile_append_dropWhile (p := isPyWs) (l := t)]
              rw [hd]
            subst hc
            rw [countc_cons_ne (fun hh => hq hh.symm)]
            conv_rhs => rw [ht]
            simp only [countc, List.count_append, List.count_cons]
            have := ih r
            simp only [countc] at this
            omega
          · rw [if_neg hdd]
            subst hc
            rw [countc_cons_ne (fun hh => hq hh.symm), countc_cons_ne (fun hh => hq hh.symm), ih]
      · rw [if_neg hc]
        by_cases hcq : c = q
        · subst hcq
          rw [countc_cons_self, countc_cons_self, ih]
        · rw [countc_cons_ne hcq, countc_cons_ne hcq, ih]

theorem stripTrailingCommas_count {q : Char} (hq : q ≠ ',') (l : List Char) :
    countc q (stripTrailingCommas l) = countc q l :=
  stc_count hq (l.length + 1) l

/-- C6, amended: for inputs containing no quote and no colon characters
(so no string literal can hide a delimiter and no property-name rewrite
fires), the structural-repair output has pairwise equal counts of
record delimiters and of list delimiters.  In general only the
delimiters tracked outside string literals are closed: raw counts can
differ and the output need not parse (see `c6_counterexample`). -/
theorem c6_balance_no_strings (l : List Char) (hq : '"' ∉ l) (hcol : ':' ∉ l) :
    countc '\x7b' (aggressiveJsonRepair l) = countc '\x7d' (aggressiveJsonRepair l) ∧
    countc '[' (aggressiveJsonRepair l) = countc ']' (aggressiveJsonRepair l) := by
  have hlfq : '"' ∉ l.filter (fun c => !isCtrlRm c) :=
    fun hm => hq (List.mem_of_mem_filter hm)
  have hlfc : ':' ∉ l.filter (fun c => !isCtrlRm c) :=
    fun hm => hcol (List.mem_of_mem_filter hm)
  have hsplit : (l.filter (fun c => !isCtrlRm c)).splitOn '\n' =
      [l.filter (fun c => !isCtrlRm c)] := by
    unfold List.splitOn
    apply List.splitOnP_eq_single
    intro x hx
    have hctrl := List.of_mem_filter hx
    intro hbeq
    have hx2 : x = '\n' := by simpa using hbeq
    subst hx2
    simp [isCtrlRm] at hctrl
  have hfix : propNameFix (l.filter (fun c => !isCtrlRm c)) = l.filter (fun c => !isCtrlRm c) := by
    unfold propNameFix
    rw [if_neg hlfc]
  have hjoin : joinNl [l.filter (fun c => !isCtrlRm c)] = l.filter (fun c => !isCtrlRm c) := by
    simp [joinNl, List.intercalate]
  have hchain : aggressiveJsonRepair l =
      (match scanLinesAux [l.filter (fun c => !isCtrlRm c)] 0 0 false with
       | (acc, b, k) =>
         stripTrailingCommas
           (joinNl acc ++ List.replicate k.toNat ']' ++ List.replicate b.toNat '\x7d')) := by
    unfold aggressiveJsonRepair
    dsimp only
    rw [hsplit, List.map_cons, List.map_nil, hfix, hjoin, hsplit]
  have hq' : ∀ c ∈ pyStrip (l.filter (fun c => !isCtrlRm c)), c ≠ '"' := by
    intro c hcm heq
    subst heq
    exact hlfq (mem_pyStrip hcm)
  by_cases hemp : (pyStrip (l.filter (fun c => !isCtrlRm c))).isEmpty
  · have hscan : scanLinesAux [l.filter (fun c => !isCtrlRm c)] 0 0 false = ([], 0, 0) := by
      simp [scanLinesAux, hemp]
    rw [hscan] at hchain
    rw [hchain]
    constructor <;> rfl
  · rcases scanChars_no_quote (pyStrip (l.filter (fun c => !isCtrlRm c))) false 0 0 hq'
        le_rfl le_rfl with hnone | ⟨b', k', hsc, hb', hk', e1, e2⟩
    · have hscan : scanLinesAux [l.filter (fun c => !isCtrlRm c)] 0 0 false = ([], 0, 0) := by
        simp [scanLinesAux, hemp, hnone]
      rw [hscan] at hchain
      rw [hchain]
      constructor <;> rfl
    · have hscan : scanLinesAux [l.filter (fun c => !isCtrlRm c)] 0 0 false =
          ([pyStrip (l.filter (fun c => !isCtrlRm c))], b', k') := by
        simp [scanLinesAux, hemp, hsc]
      rw [hscan] at hchain
      dsimp only at hchain
      have hj : joinNl [pyStrip (l.filter (fun c => !isCtrlRm c))] =
          pyStrip (l.filter (fun c => !isCtrlRm c)) := by
        simp [joinNl, List.intercalate]
      rw [hj] at hchain
      rw [hchain]
      constructor
      · rw [stripTrailingCommas_count (show ('\x7b' : Char) ≠ ',' from by decide),
            stripTrailingCommas_count (show ('\x7d' : Char) ≠ ',' from by decide)]
        simp only [countc] at e1
        simp only [countc, List.count_append, List.count_replicate,
            show (']' == '\x7b') = false from by decide,
            show ('\x7d' == '\x7b') = false from by decide,
            show (']' == '\x7d') = false from by decide,
            show ('\x7d' == '\x7d') = true from by decide,
            if_true, Bool.false_eq_true, if_false]
        omega
      · rw [stripTrailingCommas_count (show ('[' : Char) ≠ ',' from by decide),
            stripTrailingCommas_count (show (']' : Char) ≠ ',' from by decide)]
        simp only [countc] at e2
        simp only [countc, List.count_append, List.count_replicate,
            show (']' == '[') = false from by decide,
            show ('\x7d' == '[') = false from by decide,
            show (']' == ']') = true from by decide,
            show ('\x7d' == ']') = false from by decide,
            if_true, Bool.false_eq_true, if_false]
        omega

theorem c6_balance_no_strings_witness :
    countc '\x7b' (aggressiveJsonRepair ("\x7b[1, 2" : String).toList) =
      countc '\x7d' (aggressiveJsonRepair ("\x7b[1, 2" : String).toList) ∧
    countc '[' (aggressiveJsonRepair ("\x7b[1, 2" : String).toList) =
      countc ']' (aggressiveJsonRepair ("\x7b[1, 2" : String).toList) :=
  c6_balance_no_strings ("\x7b[1, 2" : String).toList (by decide) (by decide)

/-! ## C9: substring infrastructure -/

theorem isPrefixOf_nil_iff (p : List Char) : p.isPrefixOf ([] : List Char) = true ↔ p = [] := by
  cases p <;> simp [List.isPrefixOf]

theorem isPrefixOf_append_right : ∀ (p x y : List Char),
    p.isPrefixOf x = true → p.isPrefixOf (x ++ y) = true := by
  intro p
  induction p with
  | nil => intro x y _; simp [List.isPrefixOf]
  | cons a p' ih =>
    intro x y h
    cases x with
    | nil => simp [List.isPrefixOf] at h
    | cons b x' =>
      simp only [List.isPrefixOf, Bool.and_eq_true] at h ⊢
      exact ⟨h.1, ih x' y h.2⟩

theorem isPrefixOf_take : ∀ (p l : List Char) (n : Nat),
    p.isPrefixOf (l.take n) = true → p.isPrefixOf l = true := by
  intro p
  induction p with
  | nil => intro l n _; simp [List.isPrefixOf]
  | cons a p' ih =>
    intro l n h
    cases l with
    | nil => simp at h
    | cons b l' =>
      cases n with
      | zero => simp [List.isPrefixOf] at h
      | succ m =>
        simp only [List.take, List.isPrefixOf, Bool.and_eq_true] at h ⊢
        exact ⟨h.1, ih l' m h.2⟩

theorem occurs_take : ∀ (p l : List Char) (n : Nat),
    occurs p (l.take n) = true → occurs p l = true := by
  intro p l
  induction l with
  | nil => intro n h; simpa using h
  | cons c t ih =>
    intro n h
    cases n with
    | zero =>
      simp only [List.take] at h
      have hp : p = [] := by
        simpa [occurs, isPrefixOf_nil_iff] using h
      subst hp
      simp [occurs, List.isPrefixOf]
    | succ m =>
      simp only [List.take, occurs, Bool.or_eq_true] at h ⊢
      rcases h with h1 | h2
      · exact Or.inl (isPrefixOf_take p (c :: t) (m + 1) h1)
      · exact Or.inr (ih m h2)

theorem occurs_drop : ∀ (p l : List Char) (n : Nat),
    occurs p (l.drop n) = true → occurs p l = true := by
  intro p l
  induction l with
  | nil => intro n h; simpa using h
  | cons c t ih =>
    intro n h
    cases n with
    | zero => exact h
    | succ m =>
      simp only [List.drop] at h
      simp only [occurs, Bool.or_eq_true]
      exact Or.inr (ih m h)

theorem occurs_append_left : ∀ (p a b : List Char),
    occurs p a = true → occurs p (a ++ b) = true := by
  intro p a
  induction a with
  | nil =>
    intro b h
    have hp : p = [] := by simpa [occurs, isPrefixOf_nil_iff] using h
    subst hp
    cases b <;> simp [occurs, List.isPrefixOf]
  | cons c a' ih =>
    intro b h
    simp only [occurs, Bool.or_eq_true] at h
    simp only [List.cons_append, occurs, Bool.or_eq_true]
    rcases h with h1 | h2
    · exact Or.inl (by
        have := isPrefixOf_append_right p (c :: a') b h1
        simpa using this)
    · exact Or.inr (ih b h2)

theorem findSub?_none_iff (p : List Char) : ∀ (l : List Char),
    findSub? p l = none ↔ occurs p l = false := by
  intro l
  induction l with
  | nil =>
    by_cases h : p.isPrefixOf ([] : List Char) = true <;>
      simp [findSub?, occurs, h]
  | cons c t ih =>
    by_cases h : p.isPrefixOf (c :: t) = true
    · simp [findSub?, occurs, h]
    · simp only [findSub?, occurs, if_neg h, Option.map_eq_none',
        Bool.or_eq_true]
      rw [ih]
      have h' : p.isPrefixOf (c :: t) = false := by
        cases hb : p.isPrefixOf (c :: t) with
        | false => rfl
        | true => exact absurd hb h
      simp [h']

theorem occurs_findSub?_some {p l : List Char} (h : occurs p l = true) :
    ∃ i, findSub? p l = some i := by
  cases hf : findSub? p l with
  | none =>
    rw [(findSub?_none_iff p l).mp hf] at h
    cases h
  | some i => exact ⟨i, rfl⟩

theorem findSub?_take_no_occurs : ∀ (p l : List Char) (i : Nat), p ≠ [] →
    findSub? p l = some i → occurs p (l.take i) = false := by
  intro p l
  induction l with
  | nil =>
    intro i hp h
    simp only [findSub?] at h
    split at h
    · rename_i hpre
      rw [isPrefixOf_nil_iff] at hpre
      exact absurd hpre hp
    · cases h
  | cons c t ih =>
    intro i hp h
    simp only [findSub?] at h
    split at h
    · cases h
      simp only [List.take]
      cases p with
      | nil => exact absurd rfl hp
      | cons a p' => simp [occurs, List.isPrefixOf]
    · rename_i hpre
      rcases Option.map_eq_some'.mp h with ⟨j, hj, hij⟩
      subst hij
      simp only [List.take, occurs]
      refine Bool.or_eq_false_iff.mpr ⟨?_, ih j hp hj⟩
      cases hb : p.isPrefixOf (c :: List.take j t) with
      | false => rfl
      | true =>
        exact absurd (isPrefixOf_take p (c :: t) (j + 1)
          (by simpa [List.take] using hb)) hpre

theorem isPrefixOf_of_append : ∀ (p q l : List Char),
    (p ++ q).isPrefixOf l = true → p.isPrefixOf l = true := by
  intro p
  induction p with
  | nil => intro q l _; simp [List.isPrefixOf]
  | cons a p' ih =>
    intro q l h
    cases l with
    | nil => simp [List.isPrefixOf] at h
    | cons b l' =>
      simp only [List.cons_append, List.isPrefixOf, Bool.and_eq_true] at h ⊢
      exact ⟨h.1, ih q l' h.2⟩

theorem occurs_pattern_append : ∀ (p q l : List Char),
    occurs (p ++ q) l = true → occurs p l = true := by
  intro p q l
  induction l with
  | nil =>
    intro h
    simp only [occurs] at h ⊢
    have : p ++ q = [] := (isPrefixOf_nil_iff _).mp h
    have hp : p = [] := by
      cases p with
      | nil => rfl
      | cons a p' => simp at this
    subst hp
    simp [List.isPrefixOf]
  | cons c t ih =>
    intro h
    simp only [occurs, Bool.or_eq_true] at h ⊢
    rcases h with h1 | h2
    · exact Or.inl (isPrefixOf_of_append p q (c :: t) h1)
    · exact Or.inr (ih h2)

theorem not_occurs_take {p l : List Char} (n : Nat) (h : occurs p l = false) :
    occurs p (l.take n) = false := by
  cases hx : occurs p (l.take n) with
  | false => rfl
  | true => rw [occurs_take p l n hx] at h; cases h

theorem not_occurs_drop {p l : List Char} (n : Nat) (h : occurs p l = false) :
    occurs p (l.drop n) = false := by
  cases hx : occurs p (l.drop n) with
  | false => rfl
  | true => rw [occurs_drop p l n hx] at h; cases h

theorem dropWhile_eq_drop (q : Char → Bool) : ∀ (l : List Char),
    ∃ n, l.dropWhile q = l.drop n := by
  intro l
  induction l with
  | nil => exact ⟨0, rfl⟩
  | cons c t ih =>
    by_cases hq : q c = true
    · obtain ⟨n, hn⟩ := ih
      exact ⟨n + 1, by simp [List.dropWhile, hq, hn]⟩
    · exact ⟨0, by simp [List.dropWhile, hq]⟩

theorem occurs_pyStrip {p l : List Char} (h : occurs p (pyStrip l) = true) :
    occurs p l = true := by
  unfold pyStrip rstrip at h
  obtain ⟨s, hs, _⟩ := rstripBy_spec isPyWs (lstrip l)
  have h1 : occurs p (lstrip l) = true := by
    rw [hs]
    exact occurs_append_left _ _ _ h
  obtain ⟨n, hn⟩ := dropWhile_eq_drop isPyWs l
  unfold lstrip at h1
  rw [hn] at h1
  exact occurs_drop p l n h1

theorem not_occurs_pyStrip {p l : List Char} (h : occurs p l = false) :
    occurs p (pyStrip l) = false := by
  cases hx : occurs p (pyStrip l) with
  | false => rfl
  | true => rw [occurs_pyStrip hx] at h; cases h

/-! ## C9: strip stability -/

theorem head?_take {l : List Char} {c : Char} (n : Nat)
    (h : l.head? = some c) (hn : n ≠ 0) : (l.take n).head? = some c := by
  cases l with
  | nil => simp at h
  | cons a t =>
    cases n with
    | zero => exact absurd rfl hn
    | succ m => simpa [List.take] using h

theorem getLast?_cons_ne (c : Char) (r : List Char) (h : r ≠ []) :
    (c :: r).getLast? = r.getLast? := by
  cases r with
  | nil => exact absurd rfl h
  | cons x r' => exact List.getLast?_cons_cons

theorem head?_dropWhile_not (q : Char → Bool) : ∀ (l : List Char) (d : Char),
    (l.dropWhile q).head? = some d → q d = false := by
  intro l
  induction l with
  | nil => intro d h; simp [List.dropWhile] at h
  | cons c t ih =>
    intro d h
    by_cases hq : q c = true
    · rw [List.dropWhile_cons_of_pos hq] at h
      exact ih d h
    · rw [List.dropWhile_cons_of_neg hq] at h
      simp only [List.head?_cons, Option.some.injEq] at h
      subst h
      exact Bool.eq_false_iff.mpr hq

theorem rstripBy_getLast (p : Char → Bool) : ∀ (l : List Char) (d : Char),
    (rstripBy p l).getLast? = some d → p d = false := by
  intro l
  induction l with
  | nil => intro d h; simp [rstripBy] at h
  | cons c t ih =>
    intro d h
    simp only [rstripBy] at h
    cases hr : rstripBy p t with
    | nil =>
      rw [hr] at h
      by_cases hp : p c = true
      · rw [if_pos hp] at h; simp at h
      · rw [if_neg hp] at h
        simp only [List.getLast?_singleton, Option.some.injEq] at h
        subst h
        exact Bool.eq_false_iff.mpr hp
    | cons x r' =>
      rw [hr] at h
      rw [getLast?_cons_ne c (x :: r') (by simp)] at h
      rw [← hr] at h
      exact ih d h

theorem lstrip_id {l : List Char}
    (h : ∀ d, l.head? = some d → isPyWs d = false) : lstrip l = l := by
  cases l with
  | nil => rfl
  | cons c t =>
    have hc : isPyWs c = false := h c rfl
    simp [lstrip, List.dropWhile, hc]

theorem rstripBy_id (p : Char → Bool) : ∀ (l : List Char),
    (∀ d, l.getLast? = some d → p d = false) → rstripBy p l = l := by
  intro l
  induction l with
  | nil => intro _; rfl
  | cons c t ih =>
    intro h
    cases t with
    | nil =>
      have hc : p c = false := h c rfl
      simp [rstripBy, hc]
    | cons x t' =>
      have ht : rstripBy p (x :: t') = x :: t' := by
        refine ih ?_
        intro d hd
        exact h d (by rw [getLast?_cons_ne c (x :: t') (by simp)]; exact hd)
      rw [show rstripBy p (c :: x :: t')
          = (match rstripBy p (x :: t') with
             | [] => if p c then [] else [c]
             | r => c :: r) from rfl, ht]

theorem pyStrip_eq_self {l : List Char}
    (h1 : ∀ d, l.head? = some d → isPyWs d = false)
    (h2 : ∀ d, l.getLast? = some d → isPyWs d = false) : pyStrip l = l := by
  unfold pyStrip rstrip
  rw [lstrip_id h1]
  exact rstripBy_id isPyWs l h2

theorem pyStrip_head (l : List Char) (d : Char)
    (h : (pyStrip l).head? = some d) : isPyWs d = false := by
  unfold pyStrip rstrip at h
  obtain ⟨s, hs, _⟩ := rstripBy_spec isPyWs (lstrip l)
  cases hx : rstripBy isPyWs (lstrip l) with
  | nil => rw [hx] at h; simp at h
  | cons e r =>
    rw [hx] at h
    simp only [List.head?_cons, Option.some.injEq] at h
    rw [hx] at hs
    refine head?_dropWhile_not isPyWs l d ?_
    show (lstrip l).head? = some d
    rw [hs, ← h]
    rfl

theorem pyStrip_getLast (l : List Char) (d : Char)
    (h : (pyStrip l).getLast? = some d) : isPyWs d = false :=
  rstripBy_getLast isPyWs (lstrip l) d h

theorem pyStrip_pyStrip (l : List Char) : pyStrip (pyStrip l) = pyStrip l :=
  pyStrip_eq_self (pyStrip_head l) (pyStrip_getLast l)

/-! ## C9: brace-truncation stability -/

theorem btAux_take : ∀ (bc : Int) (l pre : List Char), btAux bc l = some pre →
    ∃ n, n ≠ 0 ∧ pre = l.take n := by
  intro bc l
  induction l generalizing bc with
  | nil => intro pre h; simp [btAux] at h
  | cons c t ih =>
    intro pre h
    simp only [btAux] at h
    split at h
    · cases h
      exact ⟨1, by simp, rfl⟩
    · rcases Option.map_eq_some'.mp h with ⟨p', hp', hpre⟩
      obtain ⟨n, hn, hpn⟩ := ih (btStep bc c) p' hp'
      exact ⟨n + 1, by simp, by simp [← hpre, hpn, List.take]⟩

theorem btAux_ne_nil : ∀ (bc : Int) (l pre : List Char),
    btAux bc l = some pre → pre ≠ [] := by
  intro bc l
  induction l generalizing bc with
  | nil => intro pre h; simp [btAux] at h
  | cons c t ih =>
    intro pre h
    simp only [btAux] at h
    split at h
    · cases h; simp
    · rcases Option.map_eq_some'.mp h with ⟨p', _, hpre⟩
      simp [← hpre]

theorem btAux_getLast : ∀ (bc : Int) (l pre : List Char),
    btAux bc l = some pre → pre.getLast? = some '\x7d' := by
  intro bc l
  induction l generalizing bc with
  | nil => intro pre h; simp [btAux] at h
  | cons c t ih =>
    intro pre h
    simp only [btAux] at h
    split at h
    · rename_i hcond
      cases h
      simp [hcond.1]
    · rcases Option.map_eq_some'.mp h with ⟨p', hp', hpre⟩
      rw [← hpre,
        getLast?_cons_ne c p' (btAux_ne_nil (btStep bc c) t p' hp')]
      exact ih (btStep bc c) p' hp'

theorem btAux_stable : ∀ (bc : Int) (l pre : List Char),
    btAux bc l = some pre → btAux bc pre = some pre := by
  intro bc l
  induction l generalizing bc with
  | nil => intro pre h; simp [btAux] at h
  | cons c t ih =>
    intro pre h
    simp only [btAux] at h
    split at h
    · rename_i hcond
      cases h
      simp only [btAux, if_pos hcond]
    · rename_i hcond
      rcases Option.map_eq_some'.mp h with ⟨p', hp', hpre⟩
      rw [← hpre]
      simp only [btAux, if_neg hcond]
      rw [ih (btStep bc c) p' hp']
      rfl

theorem not_occurs_braceTruncate {p m : List Char}
    (h : occurs p m = false) : occurs p (braceTruncate m) = false := by
  unfold braceTruncate
  by_cases hh : m.head? = some '\x7b'
  · rw [if_pos hh]
    cases hb : btAux 0 m with
    | none => exact h
    | some pre =>
      obtain ⟨n, _, hpn⟩ := btAux_take 0 m pre hb
      dsimp only
      rw [hpn]
      exact not_occurs_take n h
  · rw [if_neg hh]
    exact h

theorem braceTruncate_head {m pre : List Char}
    (hh : m.head? = some '\x7b') (hb : btAux 0 m = some pre) :
    pre.head? = some '\x7b' := by
  obtain ⟨n, hn, hpn⟩ := btAux_take 0 m pre hb
  rw [hpn]
  exact head?_take n hh hn

theorem pyStrip_braceTruncate_pyStrip (m : List Char) :
    pyStrip (braceTruncate (pyStrip m)) = braceTruncate (pyStrip m) := by
  unfold braceTruncate
  by_cases hh : (pyStrip m).head? = some '\x7b'
  · rw [if_pos hh]
    cases hb : btAux 0 (pyStrip m) with
    | none => exact pyStrip_pyStrip m
    | some pre =>
      dsimp only
      refine pyStrip_eq_self ?_ ?_
      · intro d hd
        rw [braceTruncate_head hh hb] at hd
        cases hd
        decide
      · intro d hd
        rw [btAux_getLast 0 (pyStrip m) pre hb] at hd
        cases hd
        decide
  · rw [if_neg hh]
    exact pyStrip_pyStrip m

theorem braceTruncate_idem (m : List Char) :
    braceTruncate (braceTruncate m) = braceTruncate m := by
  by_cases hh : m.head? = some '\x7b'
  · cases hb : btAux 0 m with
    | none =>
      have h0 : braceTruncate m = m := by
        unfold braceTruncate
        rw [if_pos hh, hb]
      rw [h0, h0]
    | some pre =>
      have h0 : braceTruncate m = pre := by
        unfold braceTruncate
        rw [if_pos hh, hb]
      rw [h0]
      unfold braceTruncate
      rw [if_pos (braceTruncate_head hh hb), btAux_stable 0 m pre hb]
  · have h0 : braceTruncate m = m := by
      unfold braceTruncate
      rw [if_neg hh]
    rw [h0, h0]

/-! ## C9: tool-call and fence stages -/

theorem removeToolSpansFuel_id (fuel : Nat) (m : List Char)
    (h : findSub? toolOpen m = none) : removeToolSpansFuel fuel m = m := by
  cases fuel with
  | zero => rfl
  | succ f =>
    simp only [removeToolSpansFuel]
    rw [h]

theorem truncAtOpen_no_open (m : List Char) :
    occurs toolOpen (truncAtOpen m) = false := by
  unfold truncAtOpen
  cases hf : findSub? toolOpen m with
  | none => exact (findSub?_none_iff toolOpen m).mp hf
  | some i => exact findSub?_take_no_occurs toolOpen m i (by decide) hf

theorem removeToolCalls_no_open (l : List Char) :
    occurs toolOpen (removeToolCalls l) = false := by
  unfold removeToolCalls
  by_cases hg : (occurs toolOpen l || occurs toolClose l) = true
  · rw [if_pos hg]
    exact truncAtOpen_no_open (removeToolSpans l)
  · rw [if_neg hg]
    exact (Bool.or_eq_false_iff.mp (Bool.eq_false_iff.mpr hg)).1

theorem removeToolCalls_id {m : List Char} (h : occurs toolOpen m = false) :
    removeToolCalls m = m := by
  have hf : findSub? toolOpen m = none := (findSub?_none_iff toolOpen m).mpr h
  unfold removeToolCalls
  by_cases hg : (occurs toolOpen m || occurs toolClose m) = true
  · rw [if_pos hg]
    unfold removeToolSpans
    rw [removeToolSpansFuel_id _ _ hf]
    unfold truncAtOpen
    rw [hf]
  · rw [if_neg hg]

theorem extractFence_shape (m : List Char) :
    (extractFence m = m ∧ occurs fenceMark m = false) ∨
    (∃ k, extractFence m = pyStrip (m.drop k) ∧
      occurs fenceMark (m.drop k) = false) ∨
    (∃ k j, extractFence m = pyStrip ((m.drop k).take j) ∧
      occurs fenceMark ((m.drop k).take j) = false) := by
  unfold extractFence
  by_cases h1 : occurs fenceJson m = true
  · rw [if_pos h1]
    cases hf : findSub? fenceJson m with
    | none =>
      rw [(findSub?_none_iff fenceJson m).mp hf] at h1
      cases h1
    | some i =>
      dsimp only
      cases hfm : findSub? fenceMark (m.drop (i + fenceJson.length)) with
      | none =>
        right; left
        exact ⟨i + fenceJson.length, rfl, (findSub?_none_iff _ _).mp hfm⟩
      | some j =>
        right; right
        exact ⟨i + fenceJson.length, j, rfl,
          findSub?_take_no_occurs fenceMark _ j (by decide) hfm⟩
  · rw [if_neg h1]
    by_cases h2 : occurs fenceMark m = true
    · rw [if_pos h2]
      cases hf : findSub? fenceMark m with
      | none =>
        rw [(findSub?_none_iff fenceMark m).mp hf] at h2
        cases h2
      | some i =>
        dsimp only
        cases hfm : findSub? fenceMark (m.drop (i + fenceMark.length)) with
        | none =>
          right; left
          exact ⟨i + fenceMark.length, rfl, (findSub?_none_iff _ _).mp hfm⟩
        | some j =>
          right; right
          exact ⟨i + fenceMark.length, j, rfl,
            findSub?_take_no_occurs fenceMark _ j (by decide) hfm⟩
    · rw [if_neg h2]
      exact Or.inl ⟨rfl, Bool.eq_false_iff.mpr h2⟩

theorem extractFence_no_mark (m : List Char) :
    occurs fenceMark (extractFence m) = false := by
  rcases extractFence_shape m with ⟨he, hm⟩ | ⟨k, he, hm⟩ | ⟨k, j, he, hm⟩
  · rw [he]; exact hm
  · rw [he]; exact not_occurs_pyStrip hm
  · rw [he]; exact not_occurs_pyStrip hm

theorem not_occurs_extractFence {p m : List Char}
    (h : occurs p m = false) : occurs p (extractFence m) = false := by
  rcases extractFence_shape m with ⟨he, _⟩ | ⟨k, he, _⟩ | ⟨k, j, he, _⟩
  · rw [he]; exact h
  · rw [he]; exact not_occurs_pyStrip (not_occurs_drop k h)
  · rw [he]; exact not_occurs_pyStrip (not_occurs_take j (not_occurs_drop k h))

theorem fenceJson_decomp :
    fenceJson = fenceMark ++ ('j' :: 's' :: 'o' :: 'n' :: []) := by decide

theorem sanitizeResponse_idem (l : List Char) :
    sanitizeResponse (sanitizeResponse l) = sanitizeResponse l := by
  have hOpenA : occurs toolOpen (removeToolCalls l) = false :=
    removeToolCalls_no_open l
  have hMarkB : occurs fenceMark (extractFence (removeToolCalls l)) = false :=
    extractFence_no_mark (removeToolCalls l)
  have hOpenY : occurs toolOpen (sanitizeResponse l) = false :=
    not_occurs_braceTruncate (not_occurs_pyStrip (not_occurs_extractFence hOpenA))
  have hMarkY : occurs fenceMark (sanitizeResponse l) = false :=
    not_occurs_braceTruncate (not_occurs_pyStrip hMarkB)
  have hJsonY : occurs fenceJson (sanitizeResponse l) = false := by
    cases hx : occurs fenceJson (sanitizeResponse l) with
    | false => rfl
    | true =>
      have hm : occurs fenceMark (sanitizeResponse l) = true := by
        refine occurs_pattern_append fenceMark ('j' :: 's' :: 'o' :: 'n' :: []) _ ?_
        rw [← fenceJson_decomp]
        exact hx
      rw [hm] at hMarkY
      cases hMarkY
  have step1 : removeToolCalls (sanitizeResponse l) = sanitizeResponse l :=
    removeToolCalls_id hOpenY
  have step2 : extractFence (sanitizeResponse l) = sanitizeResponse l := by
    unfold extractFence
    rw [if_neg (show ¬ occurs fenceJson (sanitizeResponse l) = true by
          simp [hJsonY]),
        if_neg (show ¬ occurs fenceMark (sanitizeResponse l) = true by
          simp [hMarkY])]
  have step3 : pyStrip (sanitizeResponse l) = sanitizeResponse l :=
    pyStrip_braceTruncate_pyStrip (extractFence (removeToolCalls l))
  have step4 : braceTruncate (sanitizeResponse l) = sanitizeResponse l :=
    braceTruncate_idem (pyStrip (extractFence (removeToolCalls l)))
  show braceTruncate (pyStrip (extractFence (removeToolCalls (sanitizeResponse l))))
      = sanitizeResponse l
  rw [step1, step2, step3, step4]

/-- C9: the response sanitizer is a fixed point under repetition —
applying tool-call removal, fence extraction, whitespace stripping
and brace truncation a second time leaves the text of the first
pass unchanged. -/
theorem c9_sanitize_fixed_point (s : String) :
    sanitizeText (sanitizeText s) = sanitizeText s :=
  congrArg List.asString (sanitizeResponse_idem s.toList)

end FinSight
